import Mathlib

/-!
Matrix multiplication kernels of `matmul.c`.

A shallow embedding of the five multipliers of `src/matmul.c`
(`mult_seq`, `mult_seq_par`, `mult_dac`, `_dac_task` / `mult_dac_par`,
`mult_strassen`) and the properties of them that the specification states.

Memory model:

* A `long *` is a base buffer together with an offset.  A buffer is a total map
  `Nat → Int` from element index to value.
* The operands `A` and `B` are only ever read.  A read pointer is represented by
  the view it gives: `A k` is the value of the C expression `A[k]`, and the
  pointer `A + d` is the view `ptr A d`.
* The destination `C` is written through, so it is a buffer `C` plus the offset
  `c` of the pointer inside it: the C expression `C[k]` is cell `c + k`.
  In every call made by the program the destination (the result matrix or a
  scratch buffer) is a different allocation from the two operands, which is
  why the operands can be passed as values.
* The multipliers are given in exact integer arithmetic (`Int`);
  `mult_seq_long` is the sequential kernel in `long` arithmetic, where every
  product and every sum is reduced to 64 bits, and `mult_seq_long_eq_wrap`
  relates the two.  The `int` sizes and indices are taken in `Nat` (the
  specification only speaks of `n ≥ 0`, `base_thresh ≥ 1`).
* The recursive multipliers are defined by recursion on a fuel argument and
  return `none` when the fuel runs out; the entry points start them with fuel
  `n`.
-/

namespace MatMul

/-- A buffer of `long`s: element index to value. -/
abbrev Buf := Nat → Int

/-- The zero-filled buffer (`calloc`, `memset(C, 0, ...)`). -/
def zeros : Buf := fun _ => 0

/-- The buffer holding the listed values, and `0` past their end. -/
def ofList (l : List Int) : Buf := fun k => l.getD k 0

/-- The first `len` cells of a buffer. -/
def cells (C : Buf) (len : Nat) : List Int := (List.range len).map C

/-- Pointer arithmetic on a read pointer: `(A + d)[k] = A[d + k]`. -/
def ptr (A : Buf) (d : Nat) : Buf := fun k => A (d + k)

/-- The assignment `C[p] = v`.  The value is only computed when cell `p` is
read back. -/
@[macro_inline]
def store (C : Buf) (p : Nat) (v : Int) : Buf := fun q => if q = p then v else C q

/-- The loop `for (i = 0; i < n; i++) body(i)` acting on a state. -/
def loop {σ : Type} (n : Nat) (body : Nat → σ → σ) (s : σ) : σ :=
  match n with
  | 0 => s
  | k + 1 => body k (loop k body s)

/-! ## Sequential kernel -/

/-- Innermost loop of `mult_seq`:
`for (j = 0; j < n; j++) C[i*n + j] += aik * B[k*n + j];` -/
def mult_seq_j (B : Buf) (c n i k : Nat) (aik : Int) (C : Buf) : Buf :=
  loop n (fun j C => store C (c + (i * n + j)) (C (c + (i * n + j)) + aik * B (k * n + j))) C

/-- The body of the outer loop of `mult_seq` for row `i`:
`for (k = 0; k < n; k++) { long aik = A[i*n + k]; for (j ...) ... }` -/
def mult_seq_row (A B : Buf) (c n i : Nat) (C : Buf) : Buf :=
  loop n (fun k C => mult_seq_j B c n i k (A (i * n + k)) C) C

/-- The function `mult_seq(A, B, C, n)`, the destination pointer being `C + c`. -/
def mult_seq (A B C : Buf) (c n : Nat) : Buf :=
  loop n (fun i C => mult_seq_row A B c n i C) C

/-- The function `mult_seq_par(A, B, C, n)`: the same row body as `mult_seq`, the rows being
distributed over threads.  `order` is the order in which the rows get
executed. -/
def mult_seq_par (order : List Nat) (A B C : Buf) (c n : Nat) : Buf :=
  order.foldl (fun C i => mult_seq_row A B c n i C) C

/-! ## Element-wise passes -/

/-- The pass `for (i = 0; i < sz; i++) D[i] = P[i];` with `D = C + c`. -/
def pass_set (C : Buf) (c : Nat) (P : Buf) (sz : Nat) : Buf :=
  loop sz (fun i C => store C (c + i) (P i)) C

/-- The pass `for (i = 0; i < sz; i++) D[i] += T[i];` with `D = C + c`. -/
def pass_add (C : Buf) (c : Nat) (T : Buf) (sz : Nat) : Buf :=
  loop sz (fun i C => store C (c + i) (C (c + i) + T i)) C

/-- The pass `for (i = 0; i < sz; i++) D[i] -= P[i];` with `D = C + c`. -/
def pass_sub (C : Buf) (c : Nat) (P : Buf) (sz : Nat) : Buf :=
  loop sz (fun i C => store C (c + i) (C (c + i) - P i)) C

/-- The pass `for (i = 0; i < sz; i++) S[i] = X[i] + Y[i];`. -/
def sum_into (S X Y : Buf) (sz : Nat) : Buf :=
  loop sz (fun i S => store S i (X i + Y i)) S

/-- The pass `for (i = 0; i < sz; i++) S[i] = X[i] - Y[i];`. -/
def diff_into (S X Y : Buf) (sz : Nat) : Buf :=
  loop sz (fun i S => store S i (X i - Y i)) S

/-! ## Divide and conquer -/

/-- The function `mult_dac(A, B, C, n, base_thresh)` with the destination pointer `C + c`,
bounded by `fuel` nested recursive calls. -/
def mult_dac_fuel : Nat → Buf → Buf → Buf → Nat → Nat → Nat → Option Buf
  | fuel, A, B, C, c, n, base_thresh =>
    if n ≤ base_thresh then some (mult_seq A B C c n)
    else
      match fuel with
      | 0 => none
      | f + 1 =>
        let m := n / 2
        let sz := m * m
        let A11 := A
        let A12 := ptr A m
        let A21 := ptr A (m * n)
        let A22 := ptr A (m * n + m)
        let B11 := B
        let B12 := ptr B m
        let B21 := ptr B (m * n)
        let B22 := ptr B (m * n + m)
        let c11 := c
        let c12 := c + m
        let c21 := c + m * n
        let c22 := c + (m * n + m)
        let T := zeros
        (mult_dac_fuel f A11 B11 C c11 m base_thresh).bind fun C =>
        (mult_dac_fuel f A12 B21 T 0 m base_thresh).bind fun T =>
        let C := pass_add C c11 T sz
        (mult_dac_fuel f A11 B12 C c12 m base_thresh).bind fun C =>
        (mult_dac_fuel f A12 B22 T 0 m base_thresh).bind fun T =>
        let C := pass_add C c12 T sz
        (mult_dac_fuel f A21 B11 C c21 m base_thresh).bind fun C =>
        (mult_dac_fuel f A22 B21 T 0 m base_thresh).bind fun T =>
        let C := pass_add C c21 T sz
        (mult_dac_fuel f A21 B12 C c22 m base_thresh).bind fun C =>
        (mult_dac_fuel f A22 B22 T 0 m base_thresh).bind fun T =>
        let C := pass_add C c22 T sz
        some C

/-- The function `mult_dac(A, B, C, n, base_thresh)`. -/
def mult_dac (A B C : Buf) (c n base_thresh : Nat) : Option Buf :=
  mult_dac_fuel n A B C c n base_thresh

/-! ## Parallel divide and conquer -/

/-- The buffers the eight sibling tasks of one `_dac_task` invocation work on:
the destination and the two scratch buffers `T1`, `T2`. -/
@[ext]
structure TaskState where
  /-- The buffer holding the destination matrix. -/
  C : Buf
  /-- Scratch buffer `T1`. -/
  T1 : Buf
  /-- Scratch buffer `T2`. -/
  T2 : Buf

/-- A task schedule: for the invocation reached from the top-level call through
the tasks `path` (outermost first), `sched path` lists the numbers `0..7` of
its eight tasks in the order in which they run, each one to completion. -/
abbrev Sched := List Nat → List Nat

/-- The schedule seen by task `k` of an invocation with schedule `sched`. -/
def Sched.sub (sched : Sched) (k : Nat) : Sched := fun path => sched (k :: path)

/-- The schedule that runs the tasks of every invocation in the order in which
they are spawned. -/
def spawn_order : Sched := fun _ => [0, 1, 2, 3, 4, 5, 6, 7]

/-- A schedule is valid when every invocation runs each of its eight tasks
exactly once. -/
def Sched.Valid (sched : Sched) : Prop := ∀ path, (sched path).Perm (List.range 8)

/-- Run the listed tasks one after the other, each to completion. -/
def run_tasks {σ : Type} (task : Nat → σ → Option σ) : List Nat → σ → Option σ
  | [], s => some s
  | k :: ks, s => (task k s).bind (run_tasks task ks)

/-- The function `_dac_task(A, B, C, n, base_thresh)` with the destination pointer `C + c`,
bounded by `fuel` nested recursive calls.  The eight `#pragma omp task`
statements are numbered `0..7` in source order, run in the order `sched []`
up to the `taskwait`, after which the four accumulation passes run. -/
def dac_task_fuel : Nat → Sched → Buf → Buf → Buf → Nat → Nat → Nat → Option Buf
  | fuel, sched, A, B, C, c, n, base_thresh =>
    if n ≤ base_thresh then some (mult_seq A B C c n)
    else
      match fuel with
      | 0 => none
      | f + 1 =>
        let m := n / 2
        let sz := m * m
        let A11 := A
        let A12 := ptr A m
        let A21 := ptr A (m * n)
        let A22 := ptr A (m * n + m)
        let B11 := B
        let B12 := ptr B m
        let B21 := ptr B (m * n)
        let B22 := ptr B (m * n + m)
        let c11 := c
        let c12 := c + m
        let c21 := c + m * n
        let c22 := c + (m * n + m)
        let T1 := zeros
        let T2 := zeros
        let task : Nat → TaskState → Option TaskState := fun k s =>
          match k with
          | 0 => (dac_task_fuel f (sched.sub 0) A11 B11 s.C c11 m base_thresh).map
                  fun C => { s with C := C }
          | 1 => (dac_task_fuel f (sched.sub 1) A12 B21 s.T1 0 m base_thresh).map
                  fun T => { s with T1 := T }
          | 2 => (dac_task_fuel f (sched.sub 2) A11 B12 s.C c12 m base_thresh).map
                  fun C => { s with C := C }
          | 3 => (dac_task_fuel f (sched.sub 3) A12 B22 s.T2 0 m base_thresh).map
                  fun T => { s with T2 := T }
          | 4 => (dac_task_fuel f (sched.sub 4) A21 B11 s.C c21 m base_thresh).map
                  fun C => { s with C := C }
          | 5 => (dac_task_fuel f (sched.sub 5) A22 B21 s.T1 0 m base_thresh).map
                  fun T => { s with T1 := T }
          | 6 => (dac_task_fuel f (sched.sub 6) A21 B12 s.C c22 m base_thresh).map
                  fun C => { s with C := C }
          | 7 => (dac_task_fuel f (sched.sub 7) A22 B22 s.T2 0 m base_thresh).map
                  fun T => { s with T2 := T }
          | _ => some s
        (run_tasks task (sched []) { C := C, T1 := T1, T2 := T2 }).map fun s =>
          let C := pass_add s.C c11 s.T1 sz
          let C := pass_add C c12 s.T2 sz
          let C := pass_add C c21 s.T1 sz
          let C := pass_add C c22 s.T2 sz
          C

/-- The function `_dac_task(A, B, C, n, base_thresh)` under the schedule `sched`. -/
def dac_task (sched : Sched) (A B C : Buf) (c n base_thresh : Nat) : Option Buf :=
  dac_task_fuel n sched A B C c n base_thresh

/-- The function `mult_dac_par(A, B, C, n, base_thresh)`: one thread of the parallel region
calls `_dac_task` on the whole problem. -/
def mult_dac_par (sched : Sched) (A B C : Buf) (c n base_thresh : Nat) : Option Buf :=
  dac_task sched A B C c n base_thresh

/-! ## Strassen -/

/-- The three scratch buffers of one `mult_strassen` invocation. -/
structure Scratch where
  /-- Operand buffer `S1`. -/
  S1 : Buf
  /-- Operand buffer `S2`. -/
  S2 : Buf
  /-- Product buffer `P`. -/
  P : Buf

/-- What `malloc` hands out: for the invocation reached from the top-level call
through the recursive calls `path` (numbered `1..7` in source order, outermost
first), `heap path` is the content of its three scratch buffers at
allocation. -/
abbrev Heap := List Nat → Scratch

/-- The allocations seen by recursive call `k` of an invocation. -/
def Heap.sub (heap : Heap) (k : Nat) : Heap := fun path => heap (k :: path)

/-- The heap on which every allocation comes back zero-filled. -/
def zero_heap : Heap := fun _ => { S1 := zeros, S2 := zeros, P := zeros }

/-- The function `mult_strassen(A, B, C, n, base_thresh)` with the destination pointer
`C + c`, bounded by `fuel` nested recursive calls. -/
def mult_strassen_fuel : Nat → Heap → Buf → Buf → Buf → Nat → Nat → Nat → Option Buf
  | fuel, heap, A, B, C, c, n, base_thresh =>
    if n ≤ base_thresh then some (mult_seq A B C c n)
    else
      match fuel with
      | 0 => none
      | f + 1 =>
        let m := n / 2
        let sz := m * m
        let S1 := (heap []).S1
        let S2 := (heap []).S2
        let P := (heap []).P
        let A11 := A
        let A12 := ptr A m
        let A21 := ptr A (m * n)
        let A22 := ptr A (m * n + m)
        let B11 := B
        let B12 := ptr B m
        let B21 := ptr B (m * n)
        let B22 := ptr B (m * n + m)
        let c11 := c
        let c12 := c + m
        let c21 := c + m * n
        let c22 := c + (m * n + m)
        -- 1) P1 = (A11+A22)*(B11+B22)
        let S1 := sum_into S1 A11 A22 sz
        let S2 := sum_into S2 B11 B22 sz
        (mult_strassen_fuel f (heap.sub 1) S1 S2 P 0 m base_thresh).bind fun P =>
        let C := pass_set C c11 P sz
        let C := pass_set C c22 P sz
        -- 2) P2 = (A21 + A22)*B11
        let S1 := sum_into S1 A21 A22 sz
        (mult_strassen_fuel f (heap.sub 2) S1 B11 P 0 m base_thresh).bind fun P =>
        let C := pass_set C c21 P sz
        let C := pass_add C c11 P sz
        -- 3) P3 = A11*(B12 - B22)
        let S2 := diff_into S2 B12 B22 sz
        (mult_strassen_fuel f (heap.sub 3) A11 S2 P 0 m base_thresh).bind fun P =>
        let C := pass_set C c12 P sz
        let C := pass_add C c11 P sz
        -- 4) P4 = A22*(B21 - B11)
        let S2 := diff_into S2 B21 B11 sz
        (mult_strassen_fuel f (heap.sub 4) A22 S2 P 0 m base_thresh).bind fun P =>
        let C := pass_add C c22 P sz
        let C := pass_sub C c12 P sz
        -- 5) P5 = (A11 + A12)*B22
        let S1 := sum_into S1 A11 A12 sz
        (mult_strassen_fuel f (heap.sub 5) S1 B22 P 0 m base_thresh).bind fun P =>
        let C := pass_add C c12 P sz
        let C := pass_add C c22 P sz
        -- 6) P6 = (A21 - A11)*(B11 + B12)
        let S1 := diff_into S1 A21 A11 sz
        let S2 := sum_into S2 B11 B12 sz
        (mult_strassen_fuel f (heap.sub 6) S1 S2 P 0 m base_thresh).bind fun P =>
        let C := pass_sub C c11 P sz
        let C := pass_add C c21 P sz
        -- 7) P7 = (A12 - A22)*(B21 + B22)
        let S1 := diff_into S1 A12 A22 sz
        let S2 := sum_into S2 B21 B22 sz
        (mult_strassen_fuel f (heap.sub 7) S1 S2 P 0 m base_thresh).bind fun P =>
        let C := pass_sub C c12 P sz
        let C := pass_add C c22 P sz
        some C

/-- The function `mult_strassen(A, B, C, n, base_thresh)` on the heap `heap`. -/
def mult_strassen (heap : Heap) (A B C : Buf) (c n base_thresh : Nat) : Option Buf :=
  mult_strassen_fuel n heap A B C c n base_thresh

/-! ## Vocabulary of the statements -/

/-- Row `i` of an `n`-wide matrix stored at offset `c`: the cells
`c + i*n, ..., c + i*n + n - 1`. -/
def in_row (c n i q : Nat) : Prop := c + i * n ≤ q ∧ q < c + i * n + n

instance (c n i q : Nat) : Decidable (in_row c n i q) := by
  unfold in_row; infer_instance

/-- Cell-wise sum of two task states. -/
def TaskState.add (s d : TaskState) : TaskState :=
  { C := s.C + d.C, T1 := s.T1 + d.T1, T2 := s.T2 + d.T2 }

/-- The task that adds the fixed amounts `δ k` to the buffers, or fails when
there is no such amount. -/
def shift_by (δ : Nat → Option TaskState) (k : Nat) (s : TaskState) : Option TaskState :=
  (δ k).map fun d => s.add d

/-- The offset of quadrant `q` of a square matrix of side `n` inside that
matrix, with `m = n / 2`: `X11 = X`, `X12 = X + m`, `X21 = X + m*n`,
`X22 = X + m*n + m`, the quadrants being numbered `0, 1, 2, 3` in this
order. -/
def quadrant_offset (n q : Nat) : Nat :=
  let m := n / 2
  match q with
  | 0 => 0
  | 1 => m
  | 2 => m * n
  | _ => m * n + m

/-! ## The dispatcher of `main` -/

/-- The functions `main` calls from the dispatch onwards. -/
inductive Call where
  | mult_seq
  | mult_seq_par
  | mult_dac
  | mult_dac_par
  | mult_strassen
  | write_matrix
  | write_time
  deriving DecidableEq

/-- The calls that are multipliers. -/
def Call.is_multiplier : Call → Bool
  | Call.write_matrix => false
  | Call.write_time => false
  | _ => true

/-- The exit status `EXIT_SUCCESS`. -/
def EXIT_SUCCESS : Int := 0

/-- The exit status `EXIT_FAILURE`. -/
def EXIT_FAILURE : Int := 1

/-- How a run ends: the process exits with a status, or it never reaches an
exit of its own (undefined behaviour such as a write past the end of a local
array, a crash, or a call that does not return). -/
inductive Ending where
  | exit (status : Int)
  | abnormal
  deriving DecidableEq

/-- What a run of `main` does from the dispatch onwards: the calls it makes, in
order, and how it ends. -/
structure Outcome where
  /-- The calls made, in order. -/
  calls : List Call
  /-- How the run ends. -/
  ending : Ending
  deriving DecidableEq

/-- What the run meets outside the program text from the dispatch onwards. -/
structure Env where
  /-- The call of the selected multiplier returns (it need not: a failed
  allocation is dereferenced, and the recursion does not end for some
  thresholds below `1`). -/
  multiplier_returns : Bool
  /-- In `write_matrix`, `fopen(fname, "w")` succeeds. -/
  matrix_file_opens : Bool
  /-- In `write_time`, `fopen(fname, "w")` succeeds. -/
  time_file_opens : Bool

/-- The characters of `base`: `strrchr(input, '/')` plus one when there is a
slash in `input`, and `input` otherwise. -/
def base_name (input : String) : List Char :=
  (input.toList.reverse.takeWhile fun ch => ch != '/').reverse

/-- The `if`/`else if` chain of `strcmp(method, ...) == 0` tests: the
multiplier it calls, if any. -/
def select_multiplier (method : String) : Option Call :=
  if method = "Sequential" then some Call.mult_seq
  else if method = "SequentialP" then some Call.mult_seq_par
  else if method = "StraightDivAndConq" then some Call.mult_dac
  else if method = "StraightDivAndConqP" then some Call.mult_dac_par
  else if method = "StrassenDivAndConq" then some Call.mult_strassen
  else none

/-- The part of `main` from the dispatch on the method string to the end.
The chain of `strcmp` tests calls one multiplier; its final `else` reports the
unknown method and calls `exit(EXIT_FAILURE)`.  After the multiplier has
returned, `strncpy(name, base, strlen(base) - 4)` and
`name[strlen(base) - 4] = 0` write into `char name[256]` with an unsigned
length, which is undefined when `base` has fewer than `4` characters or more
than `259`; then `write_matrix` and `write_time` are called, each of which
calls `exit(1)` when its file cannot be opened; then `main` returns
`EXIT_SUCCESS`. -/
def main_dispatch (method input : String) (env : Env) : Outcome :=
  match select_multiplier method with
  | none => { calls := [], ending := Ending.exit EXIT_FAILURE }
  | some mult =>
    if !env.multiplier_returns then { calls := [mult], ending := Ending.abnormal }
    else
      let len := (base_name input).length
      if len < 4 ∨ 256 ≤ len - 4 then { calls := [mult], ending := Ending.abnormal }
      else if !env.matrix_file_opens then
        { calls := [mult, Call.write_matrix], ending := Ending.exit 1 }
      else if !env.time_file_opens then
        { calls := [mult, Call.write_matrix, Call.write_time], ending := Ending.exit 1 }
      else
        { calls := [mult, Call.write_matrix, Call.write_time], ending := Ending.exit EXIT_SUCCESS }

/-! ## Time formatting (`utils.c`) -/

/-- The conversion `%02d` of `sprintf`: the decimal numeral of `d`, padded with
zeros on the left to at least two characters. -/
def fmt_02d (d : Int) : String :=
  let s := toString d
  if s.length < 2 then "0" ++ s else s

/-- The function `format_hhmmss(secs, buf)`: the string written to `buf`, as a
function of `t = (int)secs`.  The C operators `/` and `%` on `int` truncate
towards zero. -/
def format_hhmmss (t : Int) : String :=
  let h := t.tdiv 3600
  let m := (t.tmod 3600).tdiv 60
  let s := t.tmod 60
  fmt_02d h ++ ":" ++ fmt_02d m ++ ":" ++ fmt_02d s

/-- The two-character decimal numeral of a number below `100`, with a leading
zero below `10`. -/
def two_digits (d : Nat) : String := String.mk [Nat.digitChar (d / 10), Nat.digitChar (d % 10)]

/-! ## The recursive cases, step by step -/

/-- The recursive case of `mult_strassen` (side `n > base_thresh`) with the
seven recursive multiplications given by `rec`: `rec k X Y P` is what the
`k`-th recursive call `mult_strassen(X, Y, P, m, base_thresh)` leaves in the
buffer `P`.  `scratch` is the content of `S1`, `S2`, `P` at allocation. -/
def strassen_step (rec : Nat → Buf → Buf → Buf → Option Buf) (scratch : Scratch)
    (A B C : Buf) (c n : Nat) : Option Buf :=
  let m := n / 2
  let sz := m * m
  let S1 := scratch.S1
  let S2 := scratch.S2
  let P := scratch.P
  let A11 := A
  let A12 := ptr A m
  let A21 := ptr A (m * n)
  let A22 := ptr A (m * n + m)
  let B11 := B
  let B12 := ptr B m
  let B21 := ptr B (m * n)
  let B22 := ptr B (m * n + m)
  let c11 := c
  let c12 := c + m
  let c21 := c + m * n
  let c22 := c + (m * n + m)
  -- 1) P1 = (A11+A22)*(B11+B22)
  let S1 := sum_into S1 A11 A22 sz
  let S2 := sum_into S2 B11 B22 sz
  (rec 1 S1 S2 P).bind fun P =>
  let C := pass_set C c11 P sz
  let C := pass_set C c22 P sz
  -- 2) P2 = (A21 + A22)*B11
  let S1 := sum_into S1 A21 A22 sz
  (rec 2 S1 B11 P).bind fun P =>
  let C := pass_set C c21 P sz
  let C := pass_add C c11 P sz
  -- 3) P3 = A11*(B12 - B22)
  let S2 := diff_into S2 B12 B22 sz
  (rec 3 A11 S2 P).bind fun P =>
  let C := pass_set C c12 P sz
  let C := pass_add C c11 P sz
  -- 4) P4 = A22*(B21 - B11)
  let S2 := diff_into S2 B21 B11 sz
  (rec 4 A22 S2 P).bind fun P =>
  let C := pass_add C c22 P sz
  let C := pass_sub C c12 P sz
  -- 5) P5 = (A11 + A12)*B22
  let S1 := sum_into S1 A11 A12 sz
  (rec 5 S1 B22 P).bind fun P =>
  let C := pass_add C c12 P sz
  let C := pass_add C c22 P sz
  -- 6) P6 = (A21 - A11)*(B11 + B12)
  let S1 := diff_into S1 A21 A11 sz
  let S2 := sum_into S2 B11 B12 sz
  (rec 6 S1 S2 P).bind fun P =>
  let C := pass_sub C c11 P sz
  let C := pass_add C c21 P sz
  -- 7) P7 = (A12 - A22)*(B21 + B22)
  let S1 := diff_into S1 A12 A22 sz
  let S2 := sum_into S2 B21 B22 sz
  (rec 7 S1 S2 P).bind fun P =>
  let C := pass_sub C c12 P sz
  let C := pass_add C c22 P sz
  some C

/-- A recursive multiplication that delivers in `P` exactly the product of its
two `m × m` operands, whatever `P` held before. -/
def exact_product (m : Nat) : Nat → Buf → Buf → Buf → Option Buf :=
  fun _ X Y _ => some (mult_seq X Y zeros 0 m)

/-- The recursive case of `mult_dac` (side `n > base_thresh`), recording for
each of the four output quadrants, in source order, the scratch buffer `T` as
the accumulation pass reads it and the destination buffer as the pass leaves
it. -/
def mult_dac_steps (f : Nat) (A B C : Buf) (c n base_thresh : Nat) : Option (List (Buf × Buf)) :=
  let m := n / 2
  let sz := m * m
  let A11 := A
  let A12 := ptr A m
  let A21 := ptr A (m * n)
  let A22 := ptr A (m * n + m)
  let B11 := B
  let B12 := ptr B m
  let B21 := ptr B (m * n)
  let B22 := ptr B (m * n + m)
  let c11 := c
  let c12 := c + m
  let c21 := c + m * n
  let c22 := c + (m * n + m)
  let T := zeros
  (mult_dac_fuel f A11 B11 C c11 m base_thresh).bind fun C =>
  (mult_dac_fuel f A12 B21 T 0 m base_thresh).bind fun T =>
  let C := pass_add C c11 T sz
  let s1 := (T, C)
  (mult_dac_fuel f A11 B12 C c12 m base_thresh).bind fun C =>
  (mult_dac_fuel f A12 B22 T 0 m base_thresh).bind fun T =>
  let C := pass_add C c12 T sz
  let s2 := (T, C)
  (mult_dac_fuel f A21 B11 C c21 m base_thresh).bind fun C =>
  (mult_dac_fuel f A22 B21 T 0 m base_thresh).bind fun T =>
  let C := pass_add C c21 T sz
  let s3 := (T, C)
  (mult_dac_fuel f A21 B12 C c22 m base_thresh).bind fun C =>
  (mult_dac_fuel f A22 B22 T 0 m base_thresh).bind fun T =>
  let C := pass_add C c22 T sz
  let s4 := (T, C)
  some [s1, s2, s3, s4]

/-- The eight tasks spawned by one invocation of `_dac_task` in its recursive
case (side `n > base_thresh`), numbered `0..7` in source order, as actions on
the destination and the two scratch buffers. -/
def dac_spawned (f : Nat) (sched : Sched) (A B : Buf) (c n base_thresh : Nat)
    (k : Nat) (s : TaskState) : Option TaskState :=
  let m := n / 2
  let A11 := A
  let A12 := ptr A m
  let A21 := ptr A (m * n)
  let A22 := ptr A (m * n + m)
  let B11 := B
  let B12 := ptr B m
  let B21 := ptr B (m * n)
  let B22 := ptr B (m * n + m)
  let c11 := c
  let c12 := c + m
  let c21 := c + m * n
  let c22 := c + (m * n + m)
  match k with
  | 0 => (dac_task_fuel f (sched.sub 0) A11 B11 s.C c11 m base_thresh).map
          fun C => { s with C := C }
  | 1 => (dac_task_fuel f (sched.sub 1) A12 B21 s.T1 0 m base_thresh).map
          fun T => { s with T1 := T }
  | 2 => (dac_task_fuel f (sched.sub 2) A11 B12 s.C c12 m base_thresh).map
          fun C => { s with C := C }
  | 3 => (dac_task_fuel f (sched.sub 3) A12 B22 s.T2 0 m base_thresh).map
          fun T => { s with T2 := T }
  | 4 => (dac_task_fuel f (sched.sub 4) A21 B11 s.C c21 m base_thresh).map
          fun C => { s with C := C }
  | 5 => (dac_task_fuel f (sched.sub 5) A22 B21 s.T1 0 m base_thresh).map
          fun T => { s with T1 := T }
  | 6 => (dac_task_fuel f (sched.sub 6) A21 B12 s.C c22 m base_thresh).map
          fun C => { s with C := C }
  | 7 => (dac_task_fuel f (sched.sub 7) A22 B22 s.T2 0 m base_thresh).map
          fun T => { s with T2 := T }
  | _ => some s

/-! ## Bounds-checked embedding

The same functions once more, on allocations of known length: an allocation is
the list of its cells, a `long *` is an allocation and an offset, and every
read and write returns `none` when the index is outside the allocation. -/

/-- The read `X[k]` through a pointer at offset `x` of the allocation `X`. -/
def rd (X : List Int) (x k : Nat) : Option Int := X.get? (x + k)

/-- The write `X[k] = v` through a pointer at offset `x` of the allocation
`X`. -/
def wr (X : List Int) (x k : Nat) (v : Int) : Option (List Int) :=
  if x + k < X.length then some (X.set (x + k) v) else none

/-- The loop `for (i = 0; i < n; i++) body(i)` with a body that can fail. -/
def loopM {σ : Type} (n : Nat) (body : Nat → σ → Option σ) (s : σ) : Option σ :=
  match n with
  | 0 => some s
  | k + 1 => (loopM k body s).bind (body k)

/-- An allocation of `sz` cells with the content `f` (`malloc`, `calloc`). -/
def alloc (f : Buf) (sz : Nat) : List Int := (List.range sz).map f

/-- The function `mult_seq(A, B, C, n)` with checked accesses; the three
pointers are at the offsets `a`, `b`, `c` of their allocations. -/
def mult_seq_chk (A : List Int) (a : Nat) (B : List Int) (b : Nat) (C : List Int) (c n : Nat) :
    Option (List Int) :=
  loopM n (fun i C =>
    loopM n (fun k C =>
      (rd A a (i * n + k)).bind fun aik =>
      loopM n (fun j C =>
        (rd C c (i * n + j)).bind fun cij =>
        (rd B b (k * n + j)).bind fun bkj =>
        wr C c (i * n + j) (cij + aik * bkj)) C) C) C

/-- The pass `for (i = 0; i < sz; i++) D[i] = P[i];` with checked accesses. -/
def pass_set_chk (C : List Int) (c : Nat) (P : List Int) (p sz : Nat) : Option (List Int) :=
  loopM sz (fun i C => (rd P p i).bind fun v => wr C c i v) C

/-- The pass `for (i = 0; i < sz; i++) D[i] += T[i];` with checked accesses. -/
def pass_add_chk (C : List Int) (c : Nat) (T : List Int) (t sz : Nat) : Option (List Int) :=
  loopM sz (fun i C => (rd C c i).bind fun x => (rd T t i).bind fun v => wr C c i (x + v)) C

/-- The pass `for (i = 0; i < sz; i++) D[i] -= P[i];` with checked accesses. -/
def pass_sub_chk (C : List Int) (c : Nat) (P : List Int) (p sz : Nat) : Option (List Int) :=
  loopM sz (fun i C => (rd C c i).bind fun x => (rd P p i).bind fun v => wr C c i (x - v)) C

/-- The pass `for (i = 0; i < sz; i++) S[i] = X[i] + Y[i];` with checked
accesses. -/
def sum_into_chk (S : List Int) (X : List Int) (x : Nat) (Y : List Int) (y sz : Nat) :
    Option (List Int) :=
  loopM sz (fun i S => (rd X x i).bind fun u => (rd Y y i).bind fun v => wr S 0 i (u + v)) S

/-- The pass `for (i = 0; i < sz; i++) S[i] = X[i] - Y[i];` with checked
accesses. -/
def diff_into_chk (S : List Int) (X : List Int) (x : Nat) (Y : List Int) (y sz : Nat) :
    Option (List Int) :=
  loopM sz (fun i S => (rd X x i).bind fun u => (rd Y y i).bind fun v => wr S 0 i (u - v)) S

/-- The function `mult_dac(A, B, C, n, base_thresh)` with checked accesses,
bounded by `fuel` nested recursive calls. -/
def mult_dac_chk : Nat → List Int → Nat → List Int → Nat → List Int → Nat → Nat → Nat →
    Option (List Int)
  | fuel, A, a, B, b, C, c, n, base_thresh =>
    if n ≤ base_thresh then mult_seq_chk A a B b C c n
    else
      match fuel with
      | 0 => none
      | f + 1 =>
        let m := n / 2
        let sz := m * m
        let a11 := a
        let a12 := a + m
        let a21 := a + m * n
        let a22 := a + (m * n + m)
        let b11 := b
        let b12 := b + m
        let b21 := b + m * n
        let b22 := b + (m * n + m)
        let c11 := c
        let c12 := c + m
        let c21 := c + m * n
        let c22 := c + (m * n + m)
        let T := alloc zeros sz
        match mult_dac_chk f A a11 B b11 C c11 m base_thresh with
        | none => none
        | some C =>
        match mult_dac_chk f A a12 B b21 T 0 m base_thresh with
        | none => none
        | some T =>
        match pass_add_chk C c11 T 0 sz with
        | none => none
        | some C =>
        match mult_dac_chk f A a11 B b12 C c12 m base_thresh with
        | none => none
        | some C =>
        match mult_dac_chk f A a12 B b22 T 0 m base_thresh with
        | none => none
        | some T =>
        match pass_add_chk C c12 T 0 sz with
        | none => none
        | some C =>
        match mult_dac_chk f A a21 B b11 C c21 m base_thresh with
        | none => none
        | some C =>
        match mult_dac_chk f A a22 B b21 T 0 m base_thresh with
        | none => none
        | some T =>
        match pass_add_chk C c21 T 0 sz with
        | none => none
        | some C =>
        match mult_dac_chk f A a21 B b12 C c22 m base_thresh with
        | none => none
        | some C =>
        match mult_dac_chk f A a22 B b22 T 0 m base_thresh with
        | none => none
        | some T =>
        match pass_add_chk C c22 T 0 sz with
        | none => none
        | some C =>
        some C

/-- The function `mult_strassen(A, B, C, n, base_thresh)` with checked
accesses, bounded by `fuel` nested recursive calls. -/
def mult_strassen_chk : Nat → Heap → List Int → Nat → List Int → Nat → List Int → Nat → Nat →
    Nat → Option (List Int)
  | fuel, heap, A, a, B, b, C, c, n, base_thresh =>
    if n ≤ base_thresh then mult_seq_chk A a B b C c n
    else
      match fuel with
      | 0 => none
      | f + 1 =>
        let m := n / 2
        let sz := m * m
        let S1 := alloc (heap []).S1 sz
        let S2 := alloc (heap []).S2 sz
        let P := alloc (heap []).P sz
        let a11 := a
        let a12 := a + m
        let a21 := a + m * n
        let a22 := a + (m * n + m)
        let b11 := b
        let b12 := b + m
        let b21 := b + m * n
        let b22 := b + (m * n + m)
        let c11 := c
        let c12 := c + m
        let c21 := c + m * n
        let c22 := c + (m * n + m)
        -- 1) P1 = (A11+A22)*(B11+B22)
        match sum_into_chk S1 A a11 A a22 sz with
        | none => none
        | some S1 =>
        match sum_into_chk S2 B b11 B b22 sz with
        | none => none
        | some S2 =>
        match mult_strassen_chk f (heap.sub 1) S1 0 S2 0 P 0 m base_thresh with
        | none => none
        | some P =>
        match pass_set_chk C c11 P 0 sz with
        | none => none
        | some C =>
        match pass_set_chk C c22 P 0 sz with
        | none => none
        | some C =>
        -- 2) P2 = (A21 + A22)*B11
        match sum_into_chk S1 A a21 A a22 sz with
        | none => none
        | some S1 =>
        match mult_strassen_chk f (heap.sub 2) S1 0 B b11 P 0 m base_thresh with
        | none => none
        | some P =>
        match pass_set_chk C c21 P 0 sz with
        | none => none
        | some C =>
        match pass_add_chk C c11 P 0 sz with
        | none => none
        | some C =>
        -- 3) P3 = A11*(B12 - B22)
        match diff_into_chk S2 B b12 B b22 sz with
        | none => none
        | some S2 =>
        match mult_strassen_chk f (heap.sub 3) A a11 S2 0 P 0 m base_thresh with
        | none => none
        | some P =>
        match pass_set_chk C c12 P 0 sz with
        | none => none
        | some C =>
        match pass_add_chk C c11 P 0 sz with
        | none => none
        | some C =>
        -- 4) P4 = A22*(B21 - B11)
        match diff_into_chk S2 B b21 B b11 sz with
        | none => none
        | some S2 =>
        match mult_strassen_chk f (heap.sub 4) A a22 S2 0 P 0 m base_thresh with
        | none => none
        | some P =>
        match pass_add_chk C c22 P 0 sz with
        | none => none
        | some C =>
        match pass_sub_chk C c12 P 0 sz with
        | none => none
        | some C =>
        -- 5) P5 = (A11 + A12)*B22
        match sum_into_chk S1 A a11 A a12 sz with
        | none => none
        | some S1 =>
        match mult_strassen_chk f (heap.sub 5) S1 0 B b22 P 0 m base_thresh with
        | none => none
        | some P =>
        match pass_add_chk C c12 P 0 sz with
        | none => none
        | some C =>
        match pass_add_chk C c22 P 0 sz with
        | none => none
        | some C =>
        -- 6) P6 = (A21 - A11)*(B11 + B12)
        match diff_into_chk S1 A a21 A a11 sz with
        | none => none
        | some S1 =>
        match sum_into_chk S2 B b11 B b12 sz with
        | none => none
        | some S2 =>
        match mult_strassen_chk f (heap.sub 6) S1 0 S2 0 P 0 m base_thresh with
        | none => none
        | some P =>
        match pass_sub_chk C c11 P 0 sz with
        | none => none
        | some C =>
        match pass_add_chk C c21 P 0 sz with
        | none => none
        | some C =>
        -- 7) P7 = (A12 - A22)*(B21 + B22)
        match diff_into_chk S1 A a12 A a22 sz with
        | none => none
        | some S1 =>
        match sum_into_chk S2 B b21 B b22 sz with
        | none => none
        | some S2 =>
        match mult_strassen_chk f (heap.sub 7) S1 0 S2 0 P 0 m base_thresh with
        | none => none
        | some P =>
        match pass_sub_chk C c12 P 0 sz with
        | none => none
        | some C =>
        match pass_add_chk C c22 P 0 sz with
        | none => none
        | some C =>
        some C

/-- The buffer `Xf` holds, through a pointer at offset `x` of the allocation
`X`, the cells of the allocation: every checked read `X[k]` that succeeds
gives `Xf k`. -/
def reads (X : List Int) (x : Nat) (Xf : Buf) : Prop :=
  ∀ k v, rd X x k = some v → Xf k = v

/-- The buffer `Xf` holds the cells of the allocation `X`. -/
def agrees (X : List Int) (Xf : Buf) : Prop := reads X 0 Xf

/-! ## The sequential kernel on 64-bit integers -/

/-- The value a `long` takes when it is assigned the arithmetic result `x`:
the 64-bit two's complement number congruent to `x` modulo `2^64` (an overflow
wraps around). -/
def wrap64 (x : Int) : Int :=
  (x + 9223372036854775808) % 18446744073709551616 - 9223372036854775808

/-- Innermost loop of `mult_seq` in `long` arithmetic:
`for (j = 0; j < n; j++) C[i*n + j] += aik * B[k*n + j];`, the product and the
sum each being reduced to a `long`. -/
def mult_seq_long_j (B : Buf) (c n i k : Nat) (aik : Int) (C : Buf) : Buf :=
  loop n (fun j C =>
    store C (c + (i * n + j)) (wrap64 (C (c + (i * n + j)) + wrap64 (aik * B (k * n + j))))) C

/-- The body of the outer loop of `mult_seq` for row `i`, in `long`
arithmetic. -/
def mult_seq_long_row (A B : Buf) (c n i : Nat) (C : Buf) : Buf :=
  loop n (fun k C => mult_seq_long_j B c n i k (A (i * n + k)) C) C

/-- The function `mult_seq(A, B, C, n)` in `long` arithmetic, the destination
pointer being `C + c`. -/
def mult_seq_long (A B C : Buf) (c n : Nat) : Buf :=
  loop n (fun i C => mult_seq_long_row A B c n i C) C

/-! # Theorems -/

/-! ## Loops and stores -/

theorem loop_zero {σ : Type} (body : Nat → σ → σ) (s : σ) : loop 0 body s = s := rfl

theorem loop_succ {σ : Type} (k : Nat) (body : Nat → σ → σ) (s : σ) :
    loop (k + 1) body s = body k (loop k body s) := rfl

theorem store_apply (C : Buf) (p : Nat) (v : Int) (q : Nat) :
    store C p v q = if q = p then v else C q := rfl

/-- A `for` loop runs its body on `0, 1, ..., n - 1` in this order. -/
theorem loop_eq_foldl {σ : Type} (n : Nat) (body : Nat → σ → σ) (s : σ) :
    loop n body s = (List.range n).foldl (fun s i => body i s) s := by
  induction n with
  | zero => rfl
  | succ k ih => rw [loop_succ, List.range_succ, List.foldl_append, ← ih]; rfl

/-- The innermost loop, run up to `J`, adds `aik * B[k*n + j]` to the first `J`
cells of row `i` and leaves every other cell alone. -/
theorem mult_seq_j_loop (B : Buf) (c n i k : Nat) (aik : Int) (C : Buf) (J q : Nat) :
    loop J (fun j C => store C (c + (i * n + j)) (C (c + (i * n + j)) + aik * B (k * n + j))) C q
      = if c + i * n ≤ q ∧ q < c + i * n + J then C q + aik * B (k * n + (q - (c + i * n)))
        else C q := by
  induction J with
  | zero => rw [loop_zero, if_neg (by omega)]
  | succ J ih =>
    rw [loop_succ, store_apply]
    by_cases hq : q = c + (i * n + J)
    · subst hq
      rw [if_pos rfl, ih]
      clear ih
      rw [if_neg (by omega), if_pos (by omega)]
      congr 3
      omega
    · rw [if_neg hq, ih]
      clear ih
      by_cases h : c + i * n ≤ q ∧ q < c + i * n + J
      · rw [if_pos h, if_pos (by omega)]
      · rw [if_neg h, if_neg (by omega)]

theorem mult_seq_j_apply (B : Buf) (c n i k : Nat) (aik : Int) (C : Buf) (q : Nat) :
    mult_seq_j B c n i k aik C q
      = if in_row c n i q then C q + aik * B (k * n + (q - (c + i * n))) else C q :=
  mult_seq_j_loop B c n i k aik C n q

/-- The loop over `k`, run up to `K`, adds the first `K` terms of the dot
product to each cell of row `i`. -/
theorem mult_seq_k_loop (A B : Buf) (c n i : Nat) (C : Buf) (K q : Nat) :
    loop K (fun k C => mult_seq_j B c n i k (A (i * n + k)) C) C q
      = if in_row c n i q then
          C q + ∑ k ∈ Finset.range K, A (i * n + k) * B (k * n + (q - (c + i * n)))
        else C q := by
  induction K with
  | zero => simp [loop_zero]
  | succ K ih =>
    rw [loop_succ, mult_seq_j_apply, ih]
    by_cases h : in_row c n i q
    · simp only [if_pos h, Finset.sum_range_succ]; ring
    · simp only [if_neg h]

theorem mult_seq_row_apply (A B : Buf) (c n i : Nat) (C : Buf) (q : Nat) :
    mult_seq_row A B c n i C q
      = if in_row c n i q then
          C q + ∑ k ∈ Finset.range n, A (i * n + k) * B (k * n + (q - (c + i * n)))
        else C q :=
  mult_seq_k_loop A B c n i C n q

/-! ## Rows -/

/-- A cell lies in at most one row. -/
theorem in_row_unique {c n i i2 q : Nat} (h : in_row c n i q) (h2 : in_row c n i2 q) : i = i2 := by
  unfold in_row at h h2
  rcases Nat.lt_trichotomy i i2 with hlt | heq | hgt
  · have : (i + 1) * n ≤ i2 * n := Nat.mul_le_mul_right n hlt
    rw [Nat.add_mul, Nat.one_mul] at this
    omega
  · exact heq
  · have : (i2 + 1) * n ≤ i * n := Nat.mul_le_mul_right n hgt
    rw [Nat.add_mul, Nat.one_mul] at this
    omega

/-- The cell of row `i` and column `j`. -/
theorem in_row_cell (c n i j : Nat) (hj : j < n) : in_row c n i (c + (i * n + j)) := by
  unfold in_row; omega

/-- Running the row bodies of the rows listed in `l`, each once, adds the dot
product to the cells of these rows and leaves the other cells alone. -/
theorem rows_foldl_apply (A B : Buf) (c n : Nat) (l : List Nat) (hl : l.Nodup) (C : Buf) (q : Nat) :
    l.foldl (fun C i => mult_seq_row A B c n i C) C q
      = if ∃ i ∈ l, in_row c n i q then
          C q + ∑ k ∈ Finset.range n,
            A ((q - c) / n * n + k) * B (k * n + (q - c) % n)
        else C q := by
  induction l generalizing C with
  | nil => simp
  | cons i l ih =>
    rw [List.foldl_cons, ih (List.nodup_cons.mp hl).2, mult_seq_row_apply]
    by_cases hi : in_row c n i q
    · have hno : ¬ ∃ i2 ∈ l, in_row c n i2 q := by
        rintro ⟨i2, hmem, h2⟩
        have := in_row_unique hi h2
        subst this
        exact (List.nodup_cons.mp hl).1 hmem
      rw [if_neg hno, if_pos hi, if_pos ⟨i, List.mem_cons_self i l, hi⟩]
      have hn : 0 < n := by unfold in_row at hi; omega
      have hdiv : (q - c) / n = i := by
        unfold in_row at hi
        apply Nat.div_eq_of_lt_le
        · omega
        · rw [Nat.succ_mul]; omega
      have hmod : (q - c) % n = q - (c + i * n) := by
        have := Nat.div_add_mod (q - c) n
        rw [hdiv, Nat.mul_comm] at this
        unfold in_row at hi
        omega
      rw [hdiv, hmod]
    · rw [if_neg hi]
      by_cases hex : ∃ i2 ∈ l, in_row c n i2 q
      · obtain ⟨i2, hmem, h2⟩ := hex
        rw [if_pos ⟨i2, hmem, h2⟩, if_pos ⟨i2, List.mem_cons_of_mem i hmem, h2⟩]
      · rw [if_neg hex, if_neg]
        rintro ⟨i2, hmem, h2⟩
        rcases List.mem_cons.mp hmem with rfl | hmem
        · exact hi h2
        · exact hex ⟨i2, hmem, h2⟩

/-- The cells of an `n × n` matrix stored at offset `c` are the cells of its
rows `0, ..., n - 1`. -/
theorem exists_in_row_iff (c n q : Nat) :
    (∃ i ∈ List.range n, in_row c n i q) ↔ c ≤ q ∧ q < c + n * n := by
  constructor
  · rintro ⟨i, hi, h⟩
    have hi : i < n := List.mem_range.mp hi
    unfold in_row at h
    have : (i + 1) * n ≤ n * n := Nat.mul_le_mul_right n hi
    rw [Nat.add_mul, Nat.one_mul] at this
    omega
  · rintro ⟨h1, h2⟩
    have hn : 0 < n := by
      rcases Nat.eq_zero_or_pos n with h0 | h0
      · subst h0; omega
      · exact h0
    refine ⟨(q - c) / n, List.mem_range.mpr ?_, ?_⟩
    · rw [Nat.div_lt_iff_lt_mul hn]; omega
    · have := Nat.div_add_mod (q - c) n
      have hm := Nat.mod_lt (q - c) hn
      unfold in_row
      rw [Nat.mul_comm] at this
      omega

/-- What `mult_seq` leaves in every cell of the destination buffer. -/
theorem mult_seq_apply (A B C : Buf) (c n q : Nat) :
    mult_seq A B C c n q
      = if c ≤ q ∧ q < c + n * n then
          C q + ∑ k ∈ Finset.range n,
            A ((q - c) / n * n + k) * B (k * n + (q - c) % n)
        else C q := by
  unfold mult_seq
  rw [loop_eq_foldl, rows_foldl_apply A B c n _ (List.nodup_range n)]
  simp only [exists_in_row_iff]

/-- What `mult_seq` leaves in the cell of row `i` and column `j`. -/
theorem mult_seq_cell (A B C : Buf) (c n i j : Nat) (hi : i < n) (hj : j < n) :
    mult_seq A B C c n (c + (i * n + j))
      = C (c + (i * n + j)) + ∑ k ∈ Finset.range n, A (i * n + k) * B (k * n + j) := by
  have hmul : (i + 1) * n ≤ n * n := Nat.mul_le_mul_right n hi
  rw [Nat.add_mul, Nat.one_mul] at hmul
  rw [mult_seq_apply, if_pos (by omega)]
  have h1 : c + (i * n + j) - c = i * n + j := by omega
  have hdiv : (i * n + j) / n = i := by
    rw [Nat.add_comm, Nat.add_mul_div_right _ _ (by omega), Nat.div_eq_of_lt hj, Nat.zero_add]
  have hmod : (i * n + j) % n = j := by
    rw [Nat.add_comm, Nat.add_mul_mod_self_right, Nat.mod_eq_of_lt hj]
  rw [h1, hdiv, hmod]

/-! ## Base case of the recursive multipliers -/

theorem mult_dac_fuel_base (fuel : Nat) (A B C : Buf) (c n base_thresh : Nat)
    (h : n ≤ base_thresh) :
    mult_dac_fuel fuel A B C c n base_thresh = some (mult_seq A B C c n) := by
  cases fuel <;> simp [mult_dac_fuel, h]

theorem dac_task_fuel_base (fuel : Nat) (sched : Sched) (A B C : Buf) (c n base_thresh : Nat)
    (h : n ≤ base_thresh) :
    dac_task_fuel fuel sched A B C c n base_thresh = some (mult_seq A B C c n) := by
  cases fuel <;> simp [dac_task_fuel, h]

theorem mult_strassen_fuel_base (fuel : Nat) (heap : Heap) (A B C : Buf) (c n base_thresh : Nat)
    (h : n ≤ base_thresh) :
    mult_strassen_fuel fuel heap A B C c n base_thresh = some (mult_seq A B C c n) := by
  cases fuel <;> simp [mult_strassen_fuel, h]

/-! ## Claims on the sequential kernel -/

/-- In exact integer arithmetic, `mult_seq` leaves in the cell of row `i < n`
and column `j < n` the initial value plus the dot product of row `i` of `A` and
column `j` of `B`; on a zero-filled destination it leaves the matrix product.
The same in `long` arithmetic is `mult_seq_long_spec`. -/
theorem mult_seq_exact (A B C0 : Buf) (c n i j : Nat) (hi : i < n) (hj : j < n) :
    mult_seq A B C0 c n (c + (i * n + j))
        = C0 (c + (i * n + j)) + ∑ k ∈ Finset.range n, A (i * n + k) * B (k * n + j)
      ∧ mult_seq A B zeros c n (c + (i * n + j))
        = ∑ k ∈ Finset.range n, A (i * n + k) * B (k * n + j) := by
  refine ⟨mult_seq_cell A B C0 c n i j hi hj, ?_⟩
  rw [mult_seq_cell A B zeros c n i j hi hj]
  simp [zeros]

theorem mult_seq_exact_witness :
    mult_seq (ofList [1, 2, 3, 4]) (ofList [5, 6, 7, 8]) (ofList [9, 9, 9, 9]) 0 2 (0 + (1 * 2 + 0))
        = ofList [9, 9, 9, 9] (0 + (1 * 2 + 0))
          + ∑ k ∈ Finset.range 2, ofList [1, 2, 3, 4] (1 * 2 + k) * ofList [5, 6, 7, 8] (k * 2 + 0)
      ∧ mult_seq (ofList [1, 2, 3, 4]) (ofList [5, 6, 7, 8]) zeros 0 2 (0 + (1 * 2 + 0))
        = ∑ k ∈ Finset.range 2, ofList [1, 2, 3, 4] (1 * 2 + k) * ofList [5, 6, 7, 8] (k * 2 + 0) :=
  mult_seq_exact (ofList [1, 2, 3, 4]) (ofList [5, 6, 7, 8]) (ofList [9, 9, 9, 9]) 0 2 1 0
    (by decide) (by decide)

/-- C5: when `n ≤ base_thresh`, each of `mult_dac`, `_dac_task`, `mult_dac_par`
and `mult_strassen` returns, and leaves the destination exactly as `mult_seq`
leaves it on the same operands and the same initial destination. -/
theorem base_case_is_mult_seq (sched : Sched) (heap : Heap) (A B C : Buf) (c n base_thresh : Nat)
    (h : n ≤ base_thresh) :
    mult_dac A B C c n base_thresh = some (mult_seq A B C c n)
      ∧ dac_task sched A B C c n base_thresh = some (mult_seq A B C c n)
      ∧ mult_dac_par sched A B C c n base_thresh = some (mult_seq A B C c n)
      ∧ mult_strassen heap A B C c n base_thresh = some (mult_seq A B C c n) :=
  ⟨mult_dac_fuel_base n A B C c n base_thresh h,
   dac_task_fuel_base n sched A B C c n base_thresh h,
   dac_task_fuel_base n sched A B C c n base_thresh h,
   mult_strassen_fuel_base n heap A B C c n base_thresh h⟩

theorem base_case_is_mult_seq_witness :
    mult_dac (ofList [1, 2, 3, 4]) (ofList [5, 6, 7, 8]) zeros 0 2 64
        = some (mult_seq (ofList [1, 2, 3, 4]) (ofList [5, 6, 7, 8]) zeros 0 2)
      ∧ dac_task spawn_order (ofList [1, 2, 3, 4]) (ofList [5, 6, 7, 8]) zeros 0 2 64
        = some (mult_seq (ofList [1, 2, 3, 4]) (ofList [5, 6, 7, 8]) zeros 0 2)
      ∧ mult_dac_par spawn_order (ofList [1, 2, 3, 4]) (ofList [5, 6, 7, 8]) zeros 0 2 64
        = some (mult_seq (ofList [1, 2, 3, 4]) (ofList [5, 6, 7, 8]) zeros 0 2)
      ∧ mult_strassen zero_heap (ofList [1, 2, 3, 4]) (ofList [5, 6, 7, 8]) zeros 0 2 64
        = some (mult_seq (ofList [1, 2, 3, 4]) (ofList [5, 6, 7, 8]) zeros 0 2) :=
  base_case_is_mult_seq spawn_order zero_heap (ofList [1, 2, 3, 4]) (ofList [5, 6, 7, 8]) zeros
    0 2 64 (by decide)

/-- C7: with `A` the `n × n` identity matrix and the destination matrix
zero-filled, `mult_seq` leaves the destination equal to `B` cell for cell. -/
theorem mult_seq_identity (A B C : Buf) (c n : Nat)
    (hA : ∀ i k, i < n → k < n → A (i * n + k) = if i = k then 1 else 0)
    (hC : ∀ i j, i < n → j < n → C (c + (i * n + j)) = 0)
    (i j : Nat) (hi : i < n) (hj : j < n) :
    mult_seq A B C c n (c + (i * n + j)) = B (i * n + j) := by
  rw [mult_seq_cell A B C c n i j hi hj, hC i j hi hj, zero_add]
  rw [Finset.sum_congr rfl (fun k hk => by rw [hA i k hi (Finset.mem_range.mp hk)])]
  simp [ite_mul, Finset.sum_ite_eq, hi]

theorem mult_seq_identity_witness :
    mult_seq (ofList [1, 0, 0, 0, 0, 1, 0, 0, 0, 0, 1, 0, 0, 0, 0, 1])
        (ofList [3, 1, 4, 1, 5, 9, 2, 6, 5, 3, 5, 8, 9, 7, 9, 3]) zeros 0 4 (0 + (2 * 4 + 3))
      = ofList [3, 1, 4, 1, 5, 9, 2, 6, 5, 3, 5, 8, 9, 7, 9, 3] (2 * 4 + 3) :=
  mult_seq_identity (ofList [1, 0, 0, 0, 0, 1, 0, 0, 0, 0, 1, 0, 0, 0, 0, 1])
    (ofList [3, 1, 4, 1, 5, 9, 2, 6, 5, 3, 5, 8, 9, 7, 9, 3]) zeros 0 4
    (by intro i k hi hk; interval_cases i <;> interval_cases k <;> rfl)
    (fun _ _ _ _ => rfl) 2 3 (by decide) (by decide)

/-! ## The row-parallel kernel -/

/-- Whatever the order in which the rows `0, ..., n - 1` are executed,
`mult_seq_par` leaves what `mult_seq` leaves. -/
theorem mult_seq_par_eq (order : List Nat) (A B C : Buf) (c n : Nat)
    (horder : order.Perm (List.range n)) :
    mult_seq_par order A B C c n = mult_seq A B C c n := by
  funext q
  unfold mult_seq_par
  rw [rows_foldl_apply A B c n order (horder.nodup_iff.mpr (List.nodup_range n)),
    mult_seq_apply]
  have hiff : (∃ i ∈ order, in_row c n i q) ↔ (c ≤ q ∧ q < c + n * n) := by
    rw [← exists_in_row_iff]
    constructor
    · rintro ⟨i, hi, h⟩; exact ⟨i, horder.mem_iff.mp hi, h⟩
    · rintro ⟨i, hi, h⟩; exact ⟨i, horder.mem_iff.mpr hi, h⟩
  simp only [hiff]

/-- C6: whatever the order in which the rows `0, ..., n - 1` are executed (in
particular for every split of the rows into contiguous per-thread chunks and
every interleaving of the chunks), `mult_seq_par` leaves the same destination
as `mult_seq`; and row `i` of the result depends only on row `i` of `A`, on `B`
and on the initial row `i` of the destination. -/
theorem mult_seq_par_refines_mult_seq (order : List Nat) (A B C : Buf) (c n : Nat)
    (horder : order.Perm (List.range n)) :
    mult_seq_par order A B C c n = mult_seq A B C c n
      ∧ ∀ (order2 : List Nat) (A2 C2 : Buf) (i : Nat), order2.Perm (List.range n) → i < n →
          (∀ k, k < n → A2 (i * n + k) = A (i * n + k)) →
          (∀ j, j < n → C2 (c + (i * n + j)) = C (c + (i * n + j))) →
          ∀ j, j < n →
            mult_seq_par order2 A2 B C2 c n (c + (i * n + j))
              = mult_seq_par order A B C c n (c + (i * n + j)) := by
  refine ⟨mult_seq_par_eq order A B C c n horder, ?_⟩
  intro order2 A2 C2 i horder2 hi hA hC j hj
  rw [mult_seq_par_eq order A B C c n horder, mult_seq_par_eq order2 A2 B C2 c n horder2,
    mult_seq_cell A B C c n i j hi hj, mult_seq_cell A2 B C2 c n i j hi hj, hC j hj]
  congr 1
  exact Finset.sum_congr rfl (fun k hk => by rw [hA k (Finset.mem_range.mp hk)])

theorem mult_seq_par_refines_mult_seq_witness :
    mult_seq_par [2, 0, 1] (ofList [1, 2, 3, 4, 5, 6, 7, 8, 9])
        (ofList [9, 8, 7, 6, 5, 4, 3, 2, 1]) (ofList [1, 1, 1, 1, 1, 1, 1, 1, 1]) 0 3
      = mult_seq (ofList [1, 2, 3, 4, 5, 6, 7, 8, 9])
        (ofList [9, 8, 7, 6, 5, 4, 3, 2, 1]) (ofList [1, 1, 1, 1, 1, 1, 1, 1, 1]) 0 3 :=
  (mult_seq_par_refines_mult_seq [2, 0, 1] (ofList [1, 2, 3, 4, 5, 6, 7, 8, 9])
    (ofList [9, 8, 7, 6, 5, 4, 3, 2, 1]) (ofList [1, 1, 1, 1, 1, 1, 1, 1, 1]) 0 3
    (by decide)).1

/-! ## Termination -/

theorem isSome_bind {α β : Type} {x : Option α} {f : α → Option β}
    (hx : x.isSome = true) (hf : ∀ a, (f a).isSome = true) : (x.bind f).isSome = true := by
  cases x with
  | none => cases hx
  | some a => exact hf a

theorem isSome_map {α β : Type} {x : Option α} {f : α → β}
    (hx : x.isSome = true) : (x.map f).isSome = true := by
  cases x with
  | none => cases hx
  | some a => rfl

theorem run_tasks_isSome {σ : Type} (task : Nat → σ → Option σ)
    (htask : ∀ k s, (task k s).isSome = true) (l : List Nat) (s : σ) :
    (run_tasks task l s).isSome = true := by
  induction l generalizing s with
  | nil => rfl
  | cons k ks ih => exact isSome_bind (htask k s) ih

/-- With fuel `n`, `mult_dac` on side `n` returns. -/
theorem mult_dac_fuel_isSome (fuel : Nat) :
    ∀ (A B C : Buf) (c n base_thresh : Nat), n ≤ fuel →
      (mult_dac_fuel fuel A B C c n base_thresh).isSome = true := by
  induction fuel with
  | zero =>
    intro A B C c n bt h
    rw [mult_dac_fuel_base 0 A B C c n bt (by omega)]; rfl
  | succ f ih =>
    intro A B C c n bt h
    by_cases hb : n ≤ bt
    · rw [mult_dac_fuel_base _ A B C c n bt hb]; rfl
    · have hm : n / 2 ≤ f := by omega
      rw [mult_dac_fuel, if_neg hb]
      dsimp only
      refine isSome_bind (ih _ _ _ _ _ _ hm) fun _ => ?_
      refine isSome_bind (ih _ _ _ _ _ _ hm) fun _ => ?_
      refine isSome_bind (ih _ _ _ _ _ _ hm) fun _ => ?_
      refine isSome_bind (ih _ _ _ _ _ _ hm) fun _ => ?_
      refine isSome_bind (ih _ _ _ _ _ _ hm) fun _ => ?_
      refine isSome_bind (ih _ _ _ _ _ _ hm) fun _ => ?_
      refine isSome_bind (ih _ _ _ _ _ _ hm) fun _ => ?_
      refine isSome_bind (ih _ _ _ _ _ _ hm) fun _ => ?_
      rfl

/-- With fuel `n`, `_dac_task` on side `n` returns, whatever the schedule. -/
theorem dac_task_fuel_isSome (fuel : Nat) :
    ∀ (sched : Sched) (A B C : Buf) (c n base_thresh : Nat), n ≤ fuel →
      (dac_task_fuel fuel sched A B C c n base_thresh).isSome = true := by
  induction fuel with
  | zero =>
    intro sched A B C c n bt h
    rw [dac_task_fuel_base 0 sched A B C c n bt (by omega)]; rfl
  | succ f ih =>
    intro sched A B C c n bt h
    by_cases hb : n ≤ bt
    · rw [dac_task_fuel_base _ sched A B C c n bt hb]; rfl
    · have hm : n / 2 ≤ f := by omega
      rw [dac_task_fuel, if_neg hb]
      dsimp only
      refine isSome_map (run_tasks_isSome _ ?_ _ _)
      intro k s
      split
      all_goals first | rfl | exact isSome_map (ih _ _ _ _ _ _ _ hm)

/-- With fuel `n`, `mult_strassen` on side `n` returns, whatever the scratch
buffers hold at allocation. -/
theorem mult_strassen_fuel_isSome (fuel : Nat) :
    ∀ (heap : Heap) (A B C : Buf) (c n base_thresh : Nat), n ≤ fuel →
      (mult_strassen_fuel fuel heap A B C c n base_thresh).isSome = true := by
  induction fuel with
  | zero =>
    intro heap A B C c n bt h
    rw [mult_strassen_fuel_base 0 heap A B C c n bt (by omega)]; rfl
  | succ f ih =>
    intro heap A B C c n bt h
    by_cases hb : n ≤ bt
    · rw [mult_strassen_fuel_base _ heap A B C c n bt hb]; rfl
    · have hm : n / 2 ≤ f := by omega
      rw [mult_strassen_fuel, if_neg hb]
      dsimp only
      refine isSome_bind (ih _ _ _ _ _ _ _ hm) fun _ => ?_
      refine isSome_bind (ih _ _ _ _ _ _ _ hm) fun _ => ?_
      refine isSome_bind (ih _ _ _ _ _ _ _ hm) fun _ => ?_
      refine isSome_bind (ih _ _ _ _ _ _ _ hm) fun _ => ?_
      refine isSome_bind (ih _ _ _ _ _ _ _ hm) fun _ => ?_
      refine isSome_bind (ih _ _ _ _ _ _ _ hm) fun _ => ?_
      refine isSome_bind (ih _ _ _ _ _ _ _ hm) fun _ => ?_
      rfl

/-! ## The result does not depend on the fuel -/

theorem mult_dac_fuel_indep (f1 : Nat) :
    ∀ (f2 : Nat) (A B C : Buf) (c n base_thresh : Nat), n ≤ f1 → n ≤ f2 →
      mult_dac_fuel f1 A B C c n base_thresh = mult_dac_fuel f2 A B C c n base_thresh := by
  induction f1 with
  | zero =>
    intro f2 A B C c n bt h1 _
    rw [mult_dac_fuel_base 0 A B C c n bt (by omega), mult_dac_fuel_base f2 A B C c n bt (by omega)]
  | succ f ih =>
    intro f2 A B C c n bt h1 h2
    by_cases hb : n ≤ bt
    · rw [mult_dac_fuel_base _ A B C c n bt hb, mult_dac_fuel_base _ A B C c n bt hb]
    · cases f2 with
      | zero => omega
      | succ g =>
        have key : ∀ (A B C : Buf) (c : Nat),
            mult_dac_fuel f A B C c (n / 2) bt = mult_dac_fuel g A B C c (n / 2) bt :=
          fun A B C c => ih g A B C c (n / 2) bt (by omega) (by omega)
        conv_lhs => rw [mult_dac_fuel]
        conv_rhs => rw [mult_dac_fuel]
        simp only [if_neg hb, key]

theorem dac_task_fuel_indep (f1 : Nat) :
    ∀ (f2 : Nat) (sched : Sched) (A B C : Buf) (c n base_thresh : Nat), n ≤ f1 → n ≤ f2 →
      dac_task_fuel f1 sched A B C c n base_thresh
        = dac_task_fuel f2 sched A B C c n base_thresh := by
  induction f1 with
  | zero =>
    intro f2 sched A B C c n bt h1 _
    rw [dac_task_fuel_base 0 sched A B C c n bt (by omega),
      dac_task_fuel_base f2 sched A B C c n bt (by omega)]
  | succ f ih =>
    intro f2 sched A B C c n bt h1 h2
    by_cases hb : n ≤ bt
    · rw [dac_task_fuel_base _ sched A B C c n bt hb, dac_task_fuel_base _ sched A B C c n bt hb]
    · cases f2 with
      | zero => omega
      | succ g =>
        have key : ∀ (sched : Sched) (A B C : Buf) (c : Nat),
            dac_task_fuel f sched A B C c (n / 2) bt = dac_task_fuel g sched A B C c (n / 2) bt :=
          fun sched A B C c => ih g sched A B C c (n / 2) bt (by omega) (by omega)
        conv_lhs => rw [dac_task_fuel]
        conv_rhs => rw [dac_task_fuel]
        simp only [if_neg hb, key]

theorem mult_strassen_fuel_indep (f1 : Nat) :
    ∀ (f2 : Nat) (heap : Heap) (A B C : Buf) (c n base_thresh : Nat), n ≤ f1 → n ≤ f2 →
      mult_strassen_fuel f1 heap A B C c n base_thresh
        = mult_strassen_fuel f2 heap A B C c n base_thresh := by
  induction f1 with
  | zero =>
    intro f2 heap A B C c n bt h1 _
    rw [mult_strassen_fuel_base 0 heap A B C c n bt (by omega),
      mult_strassen_fuel_base f2 heap A B C c n bt (by omega)]
  | succ f ih =>
    intro f2 heap A B C c n bt h1 h2
    by_cases hb : n ≤ bt
    · rw [mult_strassen_fuel_base _ heap A B C c n bt hb,
        mult_strassen_fuel_base _ heap A B C c n bt hb]
    · cases f2 with
      | zero => omega
      | succ g =>
        have key : ∀ (heap : Heap) (A B C : Buf) (c : Nat),
            mult_strassen_fuel f heap A B C c (n / 2) bt
              = mult_strassen_fuel g heap A B C c (n / 2) bt :=
          fun heap A B C c => ih g heap A B C c (n / 2) bt (by omega) (by omega)
        conv_lhs => rw [mult_strassen_fuel]
        conv_rhs => rw [mult_strassen_fuel]
        simp only [if_neg hb, key]

/-- C10: for every `n` and every `base_thresh ≥ 1`, `mult_dac`, `_dac_task`
(under any schedule) and `mult_strassen` (on any heap) return a result: a
recursive call is made only on side `n / 2 < n`, so `n` nested calls are
enough, and any larger bound on the nesting gives the same result. -/
theorem recursion_terminates (sched : Sched) (heap : Heap) (A B C : Buf) (c n base_thresh : Nat)
    (_ : 1 ≤ base_thresh) :
    ((∃ R, mult_dac A B C c n base_thresh = some R)
      ∧ ∀ fuel, n ≤ fuel →
          mult_dac_fuel fuel A B C c n base_thresh = mult_dac A B C c n base_thresh)
    ∧ ((∃ R, dac_task sched A B C c n base_thresh = some R)
      ∧ ∀ fuel, n ≤ fuel →
          dac_task_fuel fuel sched A B C c n base_thresh = dac_task sched A B C c n base_thresh)
    ∧ ((∃ R, mult_strassen heap A B C c n base_thresh = some R)
      ∧ ∀ fuel, n ≤ fuel →
          mult_strassen_fuel fuel heap A B C c n base_thresh
            = mult_strassen heap A B C c n base_thresh)
    ∧ (base_thresh < n → n / 2 < n) := by
  refine ⟨⟨?_, ?_⟩, ⟨?_, ?_⟩, ⟨?_, ?_⟩, ?_⟩
  · exact Option.isSome_iff_exists.mp (mult_dac_fuel_isSome n A B C c n base_thresh (le_refl n))
  · intro fuel h
    exact mult_dac_fuel_indep fuel n A B C c n base_thresh h (le_refl n)
  · exact Option.isSome_iff_exists.mp
      (dac_task_fuel_isSome n sched A B C c n base_thresh (le_refl n))
  · intro fuel h
    exact dac_task_fuel_indep fuel n sched A B C c n base_thresh h (le_refl n)
  · exact Option.isSome_iff_exists.mp
      (mult_strassen_fuel_isSome n heap A B C c n base_thresh (le_refl n))
  · intro fuel h
    exact mult_strassen_fuel_indep fuel n heap A B C c n base_thresh h (le_refl n)
  · intro h; omega

theorem recursion_terminates_witness :
    1 ≤ 1 ∧ ∃ R, mult_strassen zero_heap (ofList [1, 0, 0, 0, 0, 1, 0, 0, 0, 0, 1, 0, 0, 0, 0, 1])
      (ofList [3, 1, 4, 1, 5, 9, 2, 6, 5, 3, 5, 8, 9, 7, 9, 3]) zeros 0 4 1 = some R :=
  ⟨by decide,
    (recursion_terminates spawn_order zero_heap (ofList [1, 0, 0, 0, 0, 1, 0, 0, 0, 0, 1, 0, 0, 0, 0, 1])
      (ofList [3, 1, 4, 1, 5, 9, 2, 6, 5, 3, 5, 8, 9, 7, 9, 3]) zeros 0 4 1 (by decide)).2.2.1.1⟩

/-! ## Accumulation is additive in the destination -/

theorem add_zeros (C : Buf) : C + zeros = C := by
  funext q; simp [zeros]

/-- What the pass `D[i] += T[i]` leaves in every cell. -/
theorem pass_add_apply (C : Buf) (c : Nat) (T : Buf) (sz q : Nat) :
    pass_add C c T sz q = if c ≤ q ∧ q < c + sz then C q + T (q - c) else C q := by
  unfold pass_add
  induction sz with
  | zero => rw [loop_zero, if_neg (by omega)]
  | succ k ih =>
    rw [loop_succ, store_apply]
    by_cases hq : q = c + k
    · subst hq
      rw [if_pos rfl, ih]
      clear ih
      rw [if_neg (by omega), if_pos (by omega)]
      congr 2
      omega
    · rw [if_neg hq, ih]
      clear ih
      by_cases h : c ≤ q ∧ q < c + k
      · rw [if_pos h, if_pos (by omega)]
      · rw [if_neg h, if_neg (by omega)]

theorem pass_add_add (C X : Buf) (c : Nat) (T : Buf) (sz : Nat) :
    pass_add (C + X) c T sz = C + pass_add X c T sz := by
  funext q
  rw [Pi.add_apply, pass_add_apply, pass_add_apply, Pi.add_apply]
  split <;> ring

theorem mult_seq_add (A B C X : Buf) (c n : Nat) :
    mult_seq A B (C + X) c n = C + mult_seq A B X c n := by
  funext q
  rw [Pi.add_apply, mult_seq_apply, mult_seq_apply, Pi.add_apply]
  split <;> ring

/-! ## Tasks that commute can run in any order -/

theorem run_tasks_perm {σ : Type} (task : Nat → σ → Option σ)
    (hcomm : ∀ a b s, (task a s).bind (task b) = (task b s).bind (task a))
    {l1 l2 : List Nat} (h : l1.Perm l2) : ∀ s, run_tasks task l1 s = run_tasks task l2 s := by
  induction h with
  | nil => intro s; rfl
  | cons k _ ih =>
    intro s
    simp only [run_tasks]
    congr 1
    funext s2
    exact ih s2
  | swap a b l =>
    intro s
    simp only [run_tasks]
    rw [← Option.bind_assoc, ← Option.bind_assoc, hcomm]
  | trans _ _ ih1 ih2 => intro s; rw [ih1, ih2]

theorem TaskState.add_right_comm (s d e : TaskState) : (s.add d).add e = (s.add e).add d := by
  ext q <;> simp only [TaskState.add, Pi.add_apply] <;> ring

theorem shift_by_comm (δ : Nat → Option TaskState) (a b : Nat) (s : TaskState) :
    (shift_by δ a s).bind (shift_by δ b) = (shift_by δ b s).bind (shift_by δ a) := by
  unfold shift_by
  cases δ a <;> cases δ b <;> simp [TaskState.add_right_comm]

/-- Tasks that add fixed amounts act the same way on a destination to which
something was added beforehand. -/
theorem run_tasks_shift_add (δ : Nat → Option TaskState) (l : List Nat) (C : Buf) (s : TaskState) :
    run_tasks (shift_by δ) l { C := C + s.C, T1 := s.T1, T2 := s.T2 }
      = (run_tasks (shift_by δ) l s).map fun s => { C := C + s.C, T1 := s.T1, T2 := s.T2 } := by
  induction l generalizing s with
  | nil => rfl
  | cons k ks ih =>
    simp only [run_tasks, shift_by]
    cases δ k with
    | none => rfl
    | some d =>
      simp only [Option.map_some', Option.some_bind]
      rw [← ih]
      congr 1
      ext q
      · simp only [TaskState.add, Pi.add_apply]; ring
      · rfl
      · rfl

/-! ## Schedule invariance of the task-parallel multiplier -/

theorem run_tasks_congr {σ : Type} (task task2 : Nat → σ → Option σ)
    (h : ∀ k s, task k s = task2 k s) (l : List Nat) (s : σ) :
    run_tasks task l s = run_tasks task2 l s := by
  rw [funext fun k => funext fun s => h k s]

theorem Sched.Valid.sub {sched : Sched} (h : sched.Valid) (k : Nat) : (sched.sub k).Valid :=
  fun path => h (k :: path)

/-- Under every valid schedule `_dac_task` adds to the destination buffer an
amount that depends neither on the schedule nor on the destination's initial
content (or it runs out of fuel under every schedule). -/
theorem dac_task_fuel_additive (fuel : Nat) :
    ∀ (A B : Buf) (c n base_thresh : Nat), ∃ r : Option Buf,
      ∀ (sched : Sched), sched.Valid → ∀ C : Buf,
        dac_task_fuel fuel sched A B C c n base_thresh = r.map fun D => C + D := by
  induction fuel with
  | zero =>
    intro A B c n bt
    by_cases hb : n ≤ bt
    · refine ⟨some (mult_seq A B zeros c n), fun sched _ C => ?_⟩
      rw [dac_task_fuel_base _ sched A B C c n bt hb, Option.map_some', ← mult_seq_add, add_zeros]
    · refine ⟨none, fun sched _ C => ?_⟩
      simp [dac_task_fuel, hb]
  | succ f ih =>
    intro A B c n bt
    by_cases hb : n ≤ bt
    · refine ⟨some (mult_seq A B zeros c n), fun sched _ C => ?_⟩
      rw [dac_task_fuel_base _ sched A B C c n bt hb, Option.map_some', ← mult_seq_add, add_zeros]
    · obtain ⟨r0, h0⟩ := ih A B c (n / 2) bt
      obtain ⟨r1, h1⟩ := ih (ptr A (n / 2)) (ptr B (n / 2 * n)) 0 (n / 2) bt
      obtain ⟨r2, h2⟩ := ih A (ptr B (n / 2)) (c + n / 2) (n / 2) bt
      obtain ⟨r3, h3⟩ := ih (ptr A (n / 2)) (ptr B (n / 2 * n + n / 2)) 0 (n / 2) bt
      obtain ⟨r4, h4⟩ := ih (ptr A (n / 2 * n)) B (c + n / 2 * n) (n / 2) bt
      obtain ⟨r5, h5⟩ := ih (ptr A (n / 2 * n + n / 2)) (ptr B (n / 2 * n)) 0 (n / 2) bt
      obtain ⟨r6, h6⟩ := ih (ptr A (n / 2 * n)) (ptr B (n / 2)) (c + (n / 2 * n + n / 2)) (n / 2) bt
      obtain ⟨r7, h7⟩ :=
        ih (ptr A (n / 2 * n + n / 2)) (ptr B (n / 2 * n + n / 2)) 0 (n / 2) bt
      let δ : Nat → Option TaskState := fun k =>
        match k with
        | 0 => r0.map fun D => { C := D, T1 := zeros, T2 := zeros }
        | 1 => r1.map fun D => { C := zeros, T1 := D, T2 := zeros }
        | 2 => r2.map fun D => { C := D, T1 := zeros, T2 := zeros }
        | 3 => r3.map fun D => { C := zeros, T1 := zeros, T2 := D }
        | 4 => r4.map fun D => { C := D, T1 := zeros, T2 := zeros }
        | 5 => r5.map fun D => { C := zeros, T1 := D, T2 := zeros }
        | 6 => r6.map fun D => { C := D, T1 := zeros, T2 := zeros }
        | 7 => r7.map fun D => { C := zeros, T1 := zeros, T2 := D }
        | _ => some { C := zeros, T1 := zeros, T2 := zeros }
      refine ⟨(run_tasks (shift_by δ) (List.range 8) { C := zeros, T1 := zeros, T2 := zeros }).map
        fun s =>
          pass_add (pass_add (pass_add (pass_add s.C c s.T1 (n / 2 * (n / 2))) (c + n / 2) s.T2
            (n / 2 * (n / 2))) (c + n / 2 * n) s.T1 (n / 2 * (n / 2)))
            (c + (n / 2 * n + n / 2)) s.T2 (n / 2 * (n / 2)), ?_⟩
      intro sched hv C
      rw [dac_task_fuel, if_neg hb]
      dsimp only
      rw [run_tasks_congr _ (shift_by δ), run_tasks_perm (shift_by δ) (shift_by_comm δ) (hv [])]
      · have e := run_tasks_shift_add δ (List.range 8) C { C := zeros, T1 := zeros, T2 := zeros }
        simp only [add_zeros] at e
        rw [e, Option.map_map, Option.map_map]
        congr 1
        funext s
        simp only [Function.comp, pass_add_add]
      · intro k s
        match k with
        | 0 =>
          rw [h0 (sched.sub 0) (hv.sub 0) s.C]
          cases r0 <;> simp [shift_by, δ, TaskState.add, add_zeros]
        | 1 =>
          rw [h1 (sched.sub 1) (hv.sub 1) s.T1]
          cases r1 <;> simp [shift_by, δ, TaskState.add, add_zeros]
        | 2 =>
          rw [h2 (sched.sub 2) (hv.sub 2) s.C]
          cases r2 <;> simp [shift_by, δ, TaskState.add, add_zeros]
        | 3 =>
          rw [h3 (sched.sub 3) (hv.sub 3) s.T2]
          cases r3 <;> simp [shift_by, δ, TaskState.add, add_zeros]
        | 4 =>
          rw [h4 (sched.sub 4) (hv.sub 4) s.C]
          cases r4 <;> simp [shift_by, δ, TaskState.add, add_zeros]
        | 5 =>
          rw [h5 (sched.sub 5) (hv.sub 5) s.T1]
          cases r5 <;> simp [shift_by, δ, TaskState.add, add_zeros]
        | 6 =>
          rw [h6 (sched.sub 6) (hv.sub 6) s.C]
          cases r6 <;> simp [shift_by, δ, TaskState.add, add_zeros]
        | 7 =>
          rw [h7 (sched.sub 7) (hv.sub 7) s.T2]
          cases r7 <;> simp [shift_by, δ, TaskState.add, add_zeros]
        | k + 8 => simp [shift_by, δ, TaskState.add, add_zeros]

theorem spawn_order_valid : spawn_order.Valid := fun _ => List.Perm.refl _

/-- C8: for every `n`, every `base_thresh ≥ 1`, all operands and every initial
content of the destination, `_dac_task` and `mult_dac_par` return, and leave
the same destination under any two schedules that run each of the eight
sibling tasks of every invocation once, to completion, before the barrier. -/
theorem dac_task_schedule_invariant (s1 s2 : Sched) (h1 : s1.Valid) (h2 : s2.Valid)
    (A B C : Buf) (c n base_thresh : Nat) (_ : 1 ≤ base_thresh) :
    dac_task s1 A B C c n base_thresh = dac_task s2 A B C c n base_thresh
      ∧ mult_dac_par s1 A B C c n base_thresh = mult_dac_par s2 A B C c n base_thresh
      ∧ ∃ R, mult_dac_par s1 A B C c n base_thresh = some R := by
  obtain ⟨r, hr⟩ := dac_task_fuel_additive n A B c n base_thresh
  have e : dac_task s1 A B C c n base_thresh = dac_task s2 A B C c n base_thresh := by
    unfold dac_task
    rw [hr s1 h1 C, hr s2 h2 C]
  exact ⟨e, e, Option.isSome_iff_exists.mp
    (dac_task_fuel_isSome n s1 A B C c n base_thresh (le_refl n))⟩

theorem dac_task_schedule_invariant_witness :
    dac_task spawn_order (ofList [1, 2, 3, 4]) (ofList [5, 6, 7, 8]) zeros 0 2 1
      = dac_task (fun _ => [7, 3, 5, 1, 6, 2, 4, 0]) (ofList [1, 2, 3, 4]) (ofList [5, 6, 7, 8])
          zeros 0 2 1 :=
  (dac_task_schedule_invariant spawn_order (fun _ => [7, 3, 5, 1, 6, 2, 4, 0])
    spawn_order_valid (fun _ => (by decide : [7, 3, 5, 1, 6, 2, 4, 0].Perm (List.range 8)))
    (ofList [1, 2, 3, 4]) (ofList [5, 6, 7, 8]) zeros 0 2 1 (by decide)).1

/-! ## The recursive paths on the specification's example -/

/-- C2 (the code departs from the claim): on the specification's example
`n = 2`, `A = [[1,2],[3,4]]`, `B = [[5,6],[7,8]]`, zero-filled destination,
with `base_thresh = 1`, `mult_dac` leaves `[[19,36],[73,108]]`, whereas
`mult_seq` leaves the product `[[19,22],[43,50]]`: the scratch buffer `T` is
zero-filled once and then accumulated into by all four recursive calls that
target it. -/
theorem mult_dac_example :
    (mult_dac (ofList [1, 2, 3, 4]) (ofList [5, 6, 7, 8]) zeros 0 2 1).map (fun C => cells C 4)
        = some [19, 36, 73, 108]
      ∧ cells (mult_seq (ofList [1, 2, 3, 4]) (ofList [5, 6, 7, 8]) zeros 0 2) 4
        = [19, 22, 43, 50] := by
  decide

/-- On side `4` with `base_thresh = 2` the recursive calls of `mult_dac` read
and write `4` consecutive cells from each quadrant pointer (row stride `2`, not
`4`): with `A` the identity the cells `6, 7, 14, 15` of the destination are
never written and the result is not `B`. -/
theorem mult_dac_stride_example :
    (mult_dac (ofList [1, 0, 0, 0, 0, 1, 0, 0, 0, 0, 1, 0, 0, 0, 0, 1])
        (ofList [1, 2, 3, 4, 5, 6, 7, 8, 9, 10, 11, 12, 13, 14, 15, 16]) zeros 0 4 2).map
          (fun C => cells C 16)
        = some [1, 2, 14, 16, 24, 26, 0, 0, 9, 10, 45, 50, 27, 30, 0, 0]
      ∧ cells (mult_seq (ofList [1, 0, 0, 0, 0, 1, 0, 0, 0, 0, 1, 0, 0, 0, 0, 1])
        (ofList [1, 2, 3, 4, 5, 6, 7, 8, 9, 10, 11, 12, 13, 14, 15, 16]) zeros 0 4) 16
        = [1, 2, 3, 4, 5, 6, 7, 8, 9, 10, 11, 12, 13, 14, 15, 16] := by
  decide

/-- C3 (the code departs from the claim): on the specification's example with
`base_thresh = 1` and zero-filled scratch buffers, `mult_strassen` leaves
`[[111,0],[252,423]]`, not the product `[[19,22],[43,50]]`: the product buffer
`P` is never cleared between the seven recursive calls, each of which
accumulates into it. -/
theorem mult_strassen_example :
    (mult_strassen zero_heap (ofList [1, 2, 3, 4]) (ofList [5, 6, 7, 8]) zeros 0 2 1).map
          (fun C => cells C 4)
        = some [111, 0, 252, 423]
      ∧ cells (mult_seq (ofList [1, 2, 3, 4]) (ofList [5, 6, 7, 8]) zeros 0 2) 4
        = [19, 22, 43, 50] := by
  decide

/-- C4 (the code departs from the claim): on the specification's example with
`base_thresh = 1`, the eight tasks running in spawn order, `mult_dac_par`
leaves `[[47,54],[57,66]]`, not the product `[[19,22],[43,50]]`: `T1` and `T2`
each receive two products before the accumulation passes read them. -/
theorem mult_dac_par_example :
    (mult_dac_par spawn_order (ofList [1, 2, 3, 4]) (ofList [5, 6, 7, 8]) zeros 0 2 1).map
          (fun C => cells C 4)
        = some [47, 54, 57, 66]
      ∧ cells (mult_seq (ofList [1, 2, 3, 4]) (ofList [5, 6, 7, 8]) zeros 0 2) 4
        = [19, 22, 43, 50] := by
  decide

/-- C9 (the code departs from the claim): with `n = 2 > base_thresh = 1`, the
same operands and a zero-filled destination, two runs of `mult_strassen` whose
product buffer `P` holds `0` resp. `1` in its first cell at allocation leave
different results: the base case accumulates into the uninitialised `P`. -/
theorem mult_strassen_reads_uninitialised :
    (mult_strassen zero_heap (ofList [1, 2, 3, 4]) (ofList [5, 6, 7, 8]) zeros 0 2 1).map
          (fun C => cells C 4)
        = some [111, 0, 252, 423]
      ∧ (mult_strassen (fun _ => { S1 := zeros, S2 := zeros, P := ofList [1] })
          (ofList [1, 2, 3, 4]) (ofList [5, 6, 7, 8]) zeros 0 2 1).map (fun C => cells C 4)
        = some [113, 0, 254, 427] := by
  decide

/-! ## The quadrant offsets -/

/-- A cell index determines its row and its column. -/
theorem row_col_unique {n x y x2 y2 : Nat} (hy : y < n) (hy2 : y2 < n)
    (h : x * n + y = x2 * n + y2) : x = x2 ∧ y = y2 := by
  have hn : 0 < n := by omega
  have hx : x = x2 := by
    have h1 : (x * n + y) / n = x := by
      rw [Nat.add_comm, Nat.add_mul_div_right _ _ hn, Nat.div_eq_of_lt hy, Nat.zero_add]
    have h2 : (x2 * n + y2) / n = x2 := by
      rw [Nat.add_comm, Nat.add_mul_div_right _ _ hn, Nat.div_eq_of_lt hy2, Nat.zero_add]
    rw [← h1, ← h2, h]
  subst hx
  exact ⟨rfl, by omega⟩

/-- The row and the column of the cell at row `r` and column `k` of quadrant
`q`, read with row stride `n`. -/
theorem quadrant_decode {n m i j q r k : Nat} (hn : n = 2 * m) (hj : j < n) (hq : q < 4)
    (hk : k < m) (h : i * n + j = quadrant_offset n q + r * n + k) :
    i = (if q < 2 then 0 else m) + r ∧ j = (if q % 2 = 0 then 0 else m) + k := by
  have hm : n / 2 = m := by omega
  unfold quadrant_offset at h
  rw [hm] at h
  interval_cases q
  · have := row_col_unique hj (by omega : k < n) (by simpa using h)
    simp; omega
  · have := row_col_unique hj (by omega : m + k < n)
      (by simp only at h; rw [h]; omega : i * n + j = r * n + (m + k))
    simp; omega
  · have := row_col_unique hj (by omega : k < n)
      (by simp only at h; rw [h, Nat.add_mul] : i * n + j = (m + r) * n + k)
    simp; omega
  · have := row_col_unique hj (by omega : m + k < n)
      (by simp only at h; rw [h, Nat.add_mul]; omega : i * n + j = (m + r) * n + (m + k))
    simp; omega

/-- C18: for every even `n ≥ 2` with `m = n / 2`, the four quadrant offsets
`0, m, m*n, m*n + m`, read with row stride `n` and side `m`, partition the
`n × n` buffer: every index `i*n + j` with `i, j < n` is `base_q + r*n + k` for
exactly one quadrant `q` and exactly one pair `r, k < m`. -/
theorem quadrants_partition (n : Nat) (_ : 2 ≤ n) (heven : n % 2 = 0) (i j : Nat)
    (hi : i < n) (hj : j < n) :
    ∃! t : Nat × Nat × Nat, t.1 < 4 ∧ t.2.1 < n / 2 ∧ t.2.2 < n / 2
      ∧ i * n + j = quadrant_offset n t.1 + t.2.1 * n + t.2.2 := by
  have hnm : n = 2 * (n / 2) := by omega
  refine ⟨((if i < n / 2 then 0 else 2) + (if j < n / 2 then 0 else 1),
    i - (if i < n / 2 then 0 else n / 2), j - (if j < n / 2 then 0 else n / 2)), ?_, ?_⟩
  · dsimp only
    have hmul : i < n / 2 ∨ n / 2 * n ≤ i * n := by
      by_cases h1 : i < n / 2
      · exact Or.inl h1
      · exact Or.inr (Nat.mul_le_mul_right n (by omega))
    by_cases h1 : i < n / 2 <;> by_cases h2 : j < n / 2 <;>
      simp only [h1, h2, if_true, if_false, quadrant_offset, Nat.sub_mul, Nat.sub_zero] <;>
      refine ⟨?_, ?_, ?_, ?_⟩ <;> first | trivial | omega
  · rintro ⟨q, r, k⟩ ⟨hq, hr, hk, h⟩
    simp only at hq hr hk h
    obtain ⟨e1, e2⟩ := quadrant_decode hnm hj hq hk h
    simp only [Prod.mk.injEq]
    interval_cases q <;> simp at e1 e2 <;> split_ifs <;> omega

theorem quadrants_partition_witness :
    ∃! t : Nat × Nat × Nat, t.1 < 4 ∧ t.2.1 < 4 / 2 ∧ t.2.2 < 4 / 2
      ∧ 1 * 4 + 3 = quadrant_offset 4 t.1 + t.2.1 * 4 + t.2.2 :=
  quadrants_partition 4 (by decide) (by decide) 1 3 (by decide) (by decide)

/-! ## The dispatcher -/

/-- Whatever the run meets after the dispatch, the multipliers it calls are the
one the chain of tests selects, and no other call is made when none is
selected. -/
theorem main_dispatch_multipliers (method input : String) (env : Env) :
    ((main_dispatch method input env).calls.filter Call.is_multiplier
        = (select_multiplier method).toList)
      ∧ (select_multiplier method = none →
          main_dispatch method input env = { calls := [], ending := Ending.exit EXIT_FAILURE }) := by
  unfold main_dispatch
  cases h : select_multiplier method with
  | none => exact ⟨rfl, fun _ => rfl⟩
  | some mult =>
    have hm : mult.is_multiplier = true := by
      unfold select_multiplier at h
      split_ifs at h <;> cases h <;> rfl
    refine ⟨?_, fun h2 => by cases h2⟩
    dsimp only
    have hw : Call.write_matrix.is_multiplier = false := rfl
    have ht : Call.write_time.is_multiplier = false := rfl
    split_ifs <;> simp [List.filter, hm, hw, ht]

/-- C11: the dispatcher runs exactly one multiplier, chosen by the method
string alone (`mult_seq` for `Sequential`, `mult_seq_par` for `SequentialP`,
`mult_dac` for `StraightDivAndConq`, `mult_dac_par` for `StraightDivAndConqP`,
`mult_strassen` for `StrassenDivAndConq`), whatever the input file name is and
whether or not the later steps of `main` succeed; for every other method
string the process exits with a non-zero status and neither `write_matrix` nor
`write_time` (nor any multiplier) is called. -/
theorem main_dispatch_spec (method input : String) (env : Env) :
    (method = "Sequential" →
        (main_dispatch method input env).calls.filter Call.is_multiplier = [Call.mult_seq])
      ∧ (method = "SequentialP" →
        (main_dispatch method input env).calls.filter Call.is_multiplier = [Call.mult_seq_par])
      ∧ (method = "StraightDivAndConq" →
        (main_dispatch method input env).calls.filter Call.is_multiplier = [Call.mult_dac])
      ∧ (method = "StraightDivAndConqP" →
        (main_dispatch method input env).calls.filter Call.is_multiplier = [Call.mult_dac_par])
      ∧ (method = "StrassenDivAndConq" →
        (main_dispatch method input env).calls.filter Call.is_multiplier = [Call.mult_strassen])
      ∧ (method ∉ ["Sequential", "SequentialP", "StraightDivAndConq", "StraightDivAndConqP",
            "StrassenDivAndConq"] →
          (∃ status, (main_dispatch method input env).ending = Ending.exit status ∧ status ≠ 0)
            ∧ Call.write_matrix ∉ (main_dispatch method input env).calls
            ∧ Call.write_time ∉ (main_dispatch method input env).calls
            ∧ (main_dispatch method input env).calls.filter Call.is_multiplier = []) := by
  have key := main_dispatch_multipliers method input env
  refine ⟨?_, ?_, ?_, ?_, ?_, ?_⟩
  · rintro rfl; rw [key.1]; decide
  · rintro rfl; rw [key.1]; decide
  · rintro rfl; rw [key.1]; decide
  · rintro rfl; rw [key.1]; decide
  · rintro rfl; rw [key.1]; decide
  · intro h
    simp only [List.mem_cons, List.mem_singleton, List.not_mem_nil, or_false, not_or] at h
    obtain ⟨h1, h2, h3, h4, h5⟩ := h
    have hsel : select_multiplier method = none := by
      simp only [select_multiplier, if_neg h1, if_neg h2, if_neg h3, if_neg h4, if_neg h5]
    rw [key.2 hsel]
    exact ⟨⟨EXIT_FAILURE, rfl, by decide⟩, by simp, by simp, rfl⟩

theorem main_dispatch_spec_witness :
    "Foo" ∉ ["Sequential", "SequentialP", "StraightDivAndConq", "StraightDivAndConqP",
        "StrassenDivAndConq"]
      ∧ (∃ status, (main_dispatch "Foo" "inputs/m4.txt"
            { multiplier_returns := true, matrix_file_opens := true,
              time_file_opens := true }).ending = Ending.exit status ∧ status ≠ 0)
      ∧ Call.write_matrix ∉ (main_dispatch "Foo" "inputs/m4.txt"
            { multiplier_returns := true, matrix_file_opens := true,
              time_file_opens := true }).calls :=
  ⟨by decide,
    ((main_dispatch_spec "Foo" "inputs/m4.txt"
      { multiplier_returns := true, matrix_file_opens := true,
        time_file_opens := true }).2.2.2.2.2 (by decide)).1,
    ((main_dispatch_spec "Foo" "inputs/m4.txt"
      { multiplier_returns := true, matrix_file_opens := true,
        time_file_opens := true }).2.2.2.2.2 (by decide)).2.1⟩

/-- The runs of `main` on a recognised method: with a file name of at least
four characters and both output files opening it writes the matrix and the
time and returns `EXIT_SUCCESS`; with the base name `m4` it does not reach the
writes; when the matrix file cannot be opened it exits with status `1` before
`write_time`. -/
theorem main_dispatch_examples :
    main_dispatch "Sequential" "inputs/m4.txt"
        { multiplier_returns := true, matrix_file_opens := true, time_file_opens := true }
        = { calls := [Call.mult_seq, Call.write_matrix, Call.write_time],
            ending := Ending.exit 0 }
      ∧ main_dispatch "Sequential" "inputs/m4"
        { multiplier_returns := true, matrix_file_opens := true, time_file_opens := true }
        = { calls := [Call.mult_seq], ending := Ending.abnormal }
      ∧ main_dispatch "StrassenDivAndConq" "inputs/m4.txt"
        { multiplier_returns := true, matrix_file_opens := false, time_file_opens := true }
        = { calls := [Call.mult_strassen, Call.write_matrix], ending := Ending.exit 1 } := by
  decide

/-! ## Time formatting -/

theorem fmt_02d_two_digits : ∀ d : Nat, d < 100 → fmt_02d (d : Int) = two_digits d := by
  decide

theorem two_digits_length (d : Nat) : (two_digits d).length = 2 := rfl

/-- C12: for every whole number of seconds `0 ≤ t < 360000`, `format_hhmmss`
writes the 8-character string `HH:MM:SS` whose three zero-padded two-digit
decimal fields are `h = t / 3600`, `m = (t mod 3600) / 60` and `s = t mod 60`,
with `m < 60`, `s < 60` and `3600*h + 60*m + s = t`. -/
theorem format_hhmmss_spec (t : Nat) (ht : t < 360000) :
    format_hhmmss (t : Int)
        = two_digits (t / 3600) ++ ":" ++ two_digits (t % 3600 / 60) ++ ":" ++ two_digits (t % 60)
      ∧ (format_hhmmss (t : Int)).length = 8
      ∧ t % 3600 / 60 < 60 ∧ t % 60 < 60
      ∧ 3600 * (t / 3600) + 60 * (t % 3600 / 60) + t % 60 = t := by
  have e : format_hhmmss (t : Int)
      = two_digits (t / 3600) ++ ":" ++ two_digits (t % 3600 / 60) ++ ":" ++ two_digits (t % 60) := by
    unfold format_hhmmss
    dsimp only
    have h1 : (t : Int).tdiv 3600 = ((t / 3600 : Nat) : Int) := (Int.ofNat_tdiv t 3600).symm
    have h2 : ((t : Int).tmod 3600).tdiv 60 = ((t % 3600 / 60 : Nat) : Int) := by
      rw [show (t : Int).tmod 3600 = ((t % 3600 : Nat) : Int) from (Int.ofNat_tmod t 3600).symm]
      exact (Int.ofNat_tdiv (t % 3600) 60).symm
    have h3 : (t : Int).tmod 60 = ((t % 60 : Nat) : Int) := (Int.ofNat_tmod t 60).symm
    rw [h1, h2, h3, fmt_02d_two_digits _ (by omega), fmt_02d_two_digits _ (by omega),
      fmt_02d_two_digits _ (by omega)]
  refine ⟨e, ?_, by omega, by omega, by omega⟩
  rw [e]
  simp only [String.length_append, two_digits_length]
  rfl

theorem format_hhmmss_spec_witness :
    3725 < 360000 ∧ format_hhmmss ((3725 : Nat) : Int)
      = two_digits (3725 / 3600) ++ ":" ++ two_digits (3725 % 3600 / 60) ++ ":"
        ++ two_digits (3725 % 60) :=
  ⟨by decide, (format_hhmmss_spec 3725 (by decide)).1⟩

/-! ## The recursive cases, step by step -/

/-- The recursive case of `mult_strassen` is `strassen_step` on the recursive
calls. -/
theorem mult_strassen_fuel_succ (f : Nat) (heap : Heap) (A B C : Buf) (c n base_thresh : Nat)
    (h : ¬ n ≤ base_thresh) :
    mult_strassen_fuel (f + 1) heap A B C c n base_thresh
      = strassen_step (fun k X Y P => mult_strassen_fuel f (heap.sub k) X Y P 0 (n / 2) base_thresh)
          (heap []) A B C c n := by
  rw [mult_strassen_fuel, if_neg h]
  rfl

/-- The recursive case of `mult_dac` leaves the destination that
`mult_dac_steps` records after the last accumulation pass. -/
theorem mult_dac_fuel_succ (f : Nat) (A B C : Buf) (c n base_thresh : Nat)
    (h : ¬ n ≤ base_thresh) :
    mult_dac_fuel (f + 1) A B C c n base_thresh
      = (mult_dac_steps f A B C c n base_thresh).bind fun l => (l.get? 3).map Prod.snd := by
  rw [mult_dac_fuel, if_neg h]
  simp [mult_dac_steps, Option.bind_assoc]

/-- The recursive case of `_dac_task` runs the tasks `dac_spawned` and then the
four accumulation passes. -/
theorem dac_task_fuel_succ (f : Nat) (sched : Sched) (A B C : Buf) (c n base_thresh : Nat)
    (h : ¬ n ≤ base_thresh) :
    dac_task_fuel (f + 1) sched A B C c n base_thresh
      = (run_tasks (dac_spawned f sched A B c n base_thresh) (sched [])
          { C := C, T1 := zeros, T2 := zeros }).map fun s =>
            pass_add (pass_add (pass_add (pass_add s.C c s.T1 (n / 2 * (n / 2)))
              (c + n / 2) s.T2 (n / 2 * (n / 2))) (c + n / 2 * n) s.T1 (n / 2 * (n / 2)))
              (c + (n / 2 * n + n / 2)) s.T2 (n / 2 * (n / 2)) := by
  rw [dac_task_fuel, if_neg h]
  rfl

/-! ## The recursive cases on small inputs -/

/-- C13 (the code departs from the claim): with `1 × 1` quadrants
`A11..A22 = 1, 2, 3, 4` and `B11..B22 = 5, 6, 7, 8`, every recursive
multiplication delivering exactly the product of its operands
(`P1..P7 = 65, 35, -2, 8, 24, 22, -30`), the passes of `mult_strassen` leave
`C11, C12, C21, C22 = 76, 44, 57, 67`, whereas the block products are
`19, 22, 43, 50`: the passes compute `C11 = P1+P2+P3-P6`, `C12 = P3-P4+P5-P7`,
`C21 = P2+P6`, `C22 = P1+P4+P5+P7`. -/
theorem strassen_recombination_example :
    (strassen_step (exact_product 1) { S1 := zeros, S2 := zeros, P := zeros }
        (ofList [1, 2, 3, 4]) (ofList [5, 6, 7, 8]) zeros 0 2).map (fun C => cells C 4)
        = some [76, 44, 57, 67]
      ∧ [(1 : Int) * 5 + 2 * 7, 1 * 6 + 2 * 8, 3 * 5 + 4 * 7, 3 * 6 + 4 * 8] = [19, 22, 43, 50]
      ∧ [(65 : Int) + 35 + -2 - 22, -2 - 8 + 24 - -30, 35 + 22, 65 + 8 + 24 + -30]
        = [76, 44, 57, 67] := by
  decide

/-- C14 (the code departs from the claim): on `n = 2`, `base_thresh = 1`,
`A = [[1,2],[3,4]]`, `B = [[5,6],[7,8]]` and a zero-filled destination, the
scratch buffer `T` holds `14, 30, 58, 90` at the four accumulation passes,
whereas the immediately preceding recursive calls (on `A12, B21`, `A12, B22`,
`A22, B21`, `A22, B22`) leave `14, 16, 28, 32` in a zero-initialised buffer. -/
theorem mult_dac_scratch_example :
    (mult_dac_steps 1 (ofList [1, 2, 3, 4]) (ofList [5, 6, 7, 8]) zeros 0 2 1).map
          (fun l => l.map fun s => s.1 0)
        = some [14, 30, 58, 90]
      ∧ [mult_dac_fuel 1 (ptr (ofList [1, 2, 3, 4]) 1) (ptr (ofList [5, 6, 7, 8]) 2) zeros 0 1 1,
          mult_dac_fuel 1 (ptr (ofList [1, 2, 3, 4]) 1) (ptr (ofList [5, 6, 7, 8]) 3) zeros 0 1 1,
          mult_dac_fuel 1 (ptr (ofList [1, 2, 3, 4]) 3) (ptr (ofList [5, 6, 7, 8]) 2) zeros 0 1 1,
          mult_dac_fuel 1 (ptr (ofList [1, 2, 3, 4]) 3) (ptr (ofList [5, 6, 7, 8]) 3) zeros 0 1 1].map
            (fun r => r.map fun T => T 0)
        = [some 14, some 16, some 28, some 32] := by
  decide

/-- C15 (the code departs from the claim): on `n = 4`, `base_thresh = 2`, `A`
the identity, `B = 1..16` and a zero-filled destination, the steps for `C11`
change the cells `2` and `3` (row `0`, columns `2` and `3`, outside `C11`), and
the steps for `C12` change the cells `4` and `5` (row `1`, columns `0` and `1`,
outside `C12`). -/
theorem mult_dac_frame_example :
    (mult_dac_steps 1 (ofList [1, 0, 0, 0, 0, 1, 0, 0, 0, 0, 1, 0, 0, 0, 0, 1])
        (ofList [1, 2, 3, 4, 5, 6, 7, 8, 9, 10, 11, 12, 13, 14, 15, 16]) zeros 0 4 2).map
          (fun l => l.map fun s => cells s.2 16)
      = some [[1, 2, 11, 12, 0, 0, 0, 0, 0, 0, 0, 0, 0, 0, 0, 0],
          [1, 2, 14, 16, 24, 26, 0, 0, 0, 0, 0, 0, 0, 0, 0, 0],
          [1, 2, 14, 16, 24, 26, 0, 0, 9, 10, 25, 28, 0, 0, 0, 0],
          [1, 2, 14, 16, 24, 26, 0, 0, 9, 10, 45, 50, 27, 30, 0, 0]] := by
  decide

/-- C16 (the code departs from the claim): on `n = 2`, `base_thresh = 1`,
`A = [[1,2],[3,4]]`, `B = [[5,6],[7,8]]`, the tasks `1` and `5` (the second and
the sixth spawned) both write cell `0` of `T1`, and the tasks `3` and `7` both
write cell `0` of `T2`: started on zero-filled buffers, each of them leaves a
non-zero value there. -/
theorem dac_tasks_share_scratch :
    [1, 5].map (fun k =>
        (dac_spawned 1 spawn_order (ofList [1, 2, 3, 4]) (ofList [5, 6, 7, 8]) 0 2 1 k
          { C := zeros, T1 := zeros, T2 := zeros }).map fun s => s.T1 0)
        = [some 14, some 28]
      ∧ [3, 7].map (fun k =>
        (dac_spawned 1 spawn_order (ofList [1, 2, 3, 4]) (ofList [5, 6, 7, 8]) 0 2 1 k
          { C := zeros, T1 := zeros, T2 := zeros }).map fun s => s.T2 0)
        = [some 16, some 32] := by
  decide

/-- C17 (the code departs from the claim): on `n = 4`, `base_thresh = 2`, the
same operands and zero-filled scratch buffers, two runs of `mult_strassen` that
differ only in the initial value of cell `6` of the destination (`0` resp. `1`)
leave different results: the cells `6, 7, 14, 15` are never written. -/
theorem mult_strassen_keeps_initial_cells :
    (mult_strassen zero_heap (ofList [1, 2, 3, 4, 5, 6, 7, 8, 9, 10, 11, 12, 13, 14, 15, 16])
        (ofList [1, 2, 3, 4, 5, 6, 7, 8, 9, 10, 11, 12, 13, 14, 15, 16])
        zeros 0 4 2).map (fun C => cells C 16)
        = some [420, 524, -458, -508, 40, 40, 0, 0, 1286, 1516, 3468, 4056, 2886, 3344, 0, 0]
      ∧ (mult_strassen zero_heap (ofList [1, 2, 3, 4, 5, 6, 7, 8, 9, 10, 11, 12, 13, 14, 15, 16])
        (ofList [1, 2, 3, 4, 5, 6, 7, 8, 9, 10, 11, 12, 13, 14, 15, 16])
        (ofList [0, 0, 0, 0, 0, 0, 1]) 0 4 2).map (fun C => cells C 16)
        = some [420, 524, -458, -508, 40, 40, 1, 0, 1286, 1516, 3468, 4056, 2886, 3344, 0, 0] := by
  decide

/-! ## Every access is inside its allocation -/

theorem rd_some {X : List Int} {x k : Nat} (h : x + k < X.length) : ∃ v, rd X x k = some v :=
  ⟨X.get ⟨x + k, h⟩, List.get?_eq_get h⟩

theorem wr_some {X : List Int} {x k : Nat} (v : Int) (h : x + k < X.length) :
    ∃ X2, wr X x k v = some X2 ∧ X2.length = X.length :=
  ⟨X.set (x + k) v, if_pos h, List.length_set _ _ _⟩

theorem alloc_length (f : Buf) (sz : Nat) : (alloc f sz).length = sz := by
  simp [alloc]

/-- A loop whose body succeeds and keeps an invariant succeeds and keeps the
invariant. -/
theorem loopM_inv {σ : Type} (Inv : σ → Prop) (n : Nat) (body : Nat → σ → Option σ) (s : σ)
    (h0 : Inv s) (hstep : ∀ k s, k < n → Inv s → ∃ s2, body k s = some s2 ∧ Inv s2) :
    ∃ s2, loopM n body s = some s2 ∧ Inv s2 := by
  induction n with
  | zero => exact ⟨s, rfl, h0⟩
  | succ k ih =>
    obtain ⟨s1, h1, i1⟩ := ih (fun j s hj hs => hstep j s (by omega) hs)
    obtain ⟨s2, h2, i2⟩ := hstep k s1 (by omega) i1
    exact ⟨s2, by rw [loopM, h1]; exact h2, i2⟩

theorem pass_set_chk_some (C : List Int) (c : Nat) (P : List Int) (p sz : Nat)
    (hC : c + sz ≤ C.length) (hP : p + sz ≤ P.length) :
    ∃ C2, pass_set_chk C c P p sz = some C2 ∧ C2.length = C.length := by
  refine loopM_inv (fun X => X.length = C.length) sz _ C rfl ?_
  intro i X hi hX
  obtain ⟨v, hv⟩ := rd_some (X := P) (x := p) (k := i) (by omega)
  obtain ⟨X2, h2, l2⟩ := wr_some (X := X) (x := c) (k := i) v (by omega)
  exact ⟨X2, by simp only [hv, Option.some_bind, h2], by omega⟩

theorem pass_add_chk_some (C : List Int) (c : Nat) (T : List Int) (t sz : Nat)
    (hC : c + sz ≤ C.length) (hT : t + sz ≤ T.length) :
    ∃ C2, pass_add_chk C c T t sz = some C2 ∧ C2.length = C.length := by
  refine loopM_inv (fun X => X.length = C.length) sz _ C rfl ?_
  intro i X hi hX
  obtain ⟨u, hu⟩ := rd_some (X := X) (x := c) (k := i) (by omega)
  obtain ⟨v, hv⟩ := rd_some (X := T) (x := t) (k := i) (by omega)
  obtain ⟨X2, h2, l2⟩ := wr_some (X := X) (x := c) (k := i) (u + v) (by omega)
  exact ⟨X2, by simp only [hu, hv, Option.some_bind, h2], by omega⟩

theorem pass_sub_chk_some (C : List Int) (c : Nat) (P : List Int) (p sz : Nat)
    (hC : c + sz ≤ C.length) (hP : p + sz ≤ P.length) :
    ∃ C2, pass_sub_chk C c P p sz = some C2 ∧ C2.length = C.length := by
  refine loopM_inv (fun X => X.length = C.length) sz _ C rfl ?_
  intro i X hi hX
  obtain ⟨u, hu⟩ := rd_some (X := X) (x := c) (k := i) (by omega)
  obtain ⟨v, hv⟩ := rd_some (X := P) (x := p) (k := i) (by omega)
  obtain ⟨X2, h2, l2⟩ := wr_some (X := X) (x := c) (k := i) (u - v) (by omega)
  exact ⟨X2, by simp only [hu, hv, Option.some_bind, h2], by omega⟩

theorem sum_into_chk_some (S X : List Int) (x : Nat) (Y : List Int) (y sz : Nat)
    (hS : sz ≤ S.length) (hX : x + sz ≤ X.length) (hY : y + sz ≤ Y.length) :
    ∃ S2, sum_into_chk S X x Y y sz = some S2 ∧ S2.length = S.length := by
  refine loopM_inv (fun Z => Z.length = S.length) sz _ S rfl ?_
  intro i Z hi hZ
  obtain ⟨u, hu⟩ := rd_some (X := X) (x := x) (k := i) (by omega)
  obtain ⟨v, hv⟩ := rd_some (X := Y) (x := y) (k := i) (by omega)
  obtain ⟨Z2, h2, l2⟩ := wr_some (X := Z) (x := 0) (k := i) (u + v) (by omega)
  exact ⟨Z2, by simp only [hu, hv, Option.some_bind, h2], by omega⟩

theorem diff_into_chk_some (S X : List Int) (x : Nat) (Y : List Int) (y sz : Nat)
    (hS : sz ≤ S.length) (hX : x + sz ≤ X.length) (hY : y + sz ≤ Y.length) :
    ∃ S2, diff_into_chk S X x Y y sz = some S2 ∧ S2.length = S.length := by
  refine loopM_inv (fun Z => Z.length = S.length) sz _ S rfl ?_
  intro i Z hi hZ
  obtain ⟨u, hu⟩ := rd_some (X := X) (x := x) (k := i) (by omega)
  obtain ⟨v, hv⟩ := rd_some (X := Y) (x := y) (k := i) (by omega)
  obtain ⟨Z2, h2, l2⟩ := wr_some (X := Z) (x := 0) (k := i) (u - v) (by omega)
  exact ⟨Z2, by simp only [hu, hv, Option.some_bind, h2], by omega⟩

/-- The cell of row `i` and column `j` lies among the `n * n` cells. -/
theorem cell_lt {n i j : Nat} (hi : i < n) (hj : j < n) : i * n + j < n * n := by
  have : (i + 1) * n ≤ n * n := Nat.mul_le_mul_right n hi
  rw [Nat.add_mul, Nat.one_mul] at this
  omega

theorem mult_seq_chk_some (A : List Int) (a : Nat) (B : List Int) (b : Nat) (C : List Int)
    (c n : Nat) (hA : a + n * n ≤ A.length) (hB : b + n * n ≤ B.length)
    (hC : c + n * n ≤ C.length) :
    ∃ C2, mult_seq_chk A a B b C c n = some C2 ∧ C2.length = C.length := by
  refine loopM_inv (fun X => X.length = C.length) n _ C rfl ?_
  intro i X hi hX
  refine loopM_inv (fun X => X.length = C.length) n _ X hX ?_
  intro k X hk hX
  have hik := cell_lt hi hk
  obtain ⟨aik, haik⟩ := rd_some (X := A) (x := a) (k := i * n + k) (by omega)
  simp only [haik, Option.some_bind]
  refine loopM_inv (fun X => X.length = C.length) n _ X hX ?_
  intro j X hj hX
  have hij := cell_lt hi hj
  have hkj := cell_lt hk hj
  obtain ⟨u, hu⟩ := rd_some (X := X) (x := c) (k := i * n + j) (by omega)
  obtain ⟨v, hv⟩ := rd_some (X := B) (x := b) (k := k * n + j) (by omega)
  obtain ⟨X2, h2, l2⟩ := wr_some (X := X) (x := c) (k := i * n + j) (u + aik * v) (by omega)
  exact ⟨X2, by simp only [hu, hv, Option.some_bind, h2], by omega⟩

/-- A quadrant of side `m = n / 2`, read as `m * m` consecutive cells from its
pointer, ends inside the `n * n` cells of the matrix. -/
theorem quadrant_fits (n : Nat) : n / 2 * n + n / 2 + n / 2 * (n / 2) ≤ n * n := by
  have h2 : 2 * (n / 2) ≤ n := by omega
  have h3 : n / 2 * (2 * (n / 2)) ≤ n / 2 * n := Nat.mul_le_mul_left _ h2
  have h4 : 2 * (n / 2) * n ≤ n * n := Nat.mul_le_mul_right _ h2
  have h5 : n / 2 ≤ n / 2 * (n / 2) := by
    rcases Nat.eq_zero_or_pos (n / 2) with h0 | h0
    · rw [h0]
    · exact Nat.le_mul_of_pos_left _ h0
  have e1 : n / 2 * (2 * (n / 2)) = n / 2 * (n / 2) + n / 2 * (n / 2) := by ring
  have e2 : 2 * (n / 2) * n = n / 2 * n + n / 2 * n := by ring
  omega

/-- With every pointer leaving room for `n * n` cells in its allocation, the
checked `mult_dac` returns, and the destination allocation keeps its length. -/
theorem mult_dac_chk_some (fuel : Nat) :
    ∀ (A : List Int) (a : Nat) (B : List Int) (b : Nat) (C : List Int) (c n base_thresh : Nat),
      n ≤ fuel → a + n * n ≤ A.length → b + n * n ≤ B.length → c + n * n ≤ C.length →
      ∃ C2, mult_dac_chk fuel A a B b C c n base_thresh = some C2 ∧ C2.length = C.length := by
  induction fuel with
  | zero =>
    intro A a B b C c n bt hf hA hB hC
    have hb : n ≤ bt := by omega
    simp only [mult_dac_chk, if_pos hb]
    exact mult_seq_chk_some A a B b C c n hA hB hC
  | succ f ih =>
    intro A a B b C c n bt hf hA hB hC
    by_cases hb : n ≤ bt
    · simp only [mult_dac_chk, if_pos hb]
      exact mult_seq_chk_some A a B b C c n hA hB hC
    · have hm : n / 2 ≤ f := by omega
      have hq := quadrant_fits n
      have hT := alloc_length zeros (n / 2 * (n / 2))
      obtain ⟨C1, h1, l1⟩ := ih A a B b C c (n / 2) bt hm (by omega) (by omega) (by omega)
      obtain ⟨T1, h2, t1⟩ := ih A (a + n / 2) B (b + n / 2 * n) (alloc zeros (n / 2 * (n / 2)))
        0 (n / 2) bt hm (by omega) (by omega) (by omega)
      obtain ⟨C2, h3, l2⟩ := pass_add_chk_some C1 c T1 0 (n / 2 * (n / 2)) (by omega) (by omega)
      obtain ⟨C3, h4, l3⟩ := ih A a B (b + n / 2) C2 (c + n / 2) (n / 2) bt hm
        (by omega) (by omega) (by omega)
      obtain ⟨T2, h5, t2⟩ := ih A (a + n / 2) B (b + (n / 2 * n + n / 2)) T1 0 (n / 2) bt hm
        (by omega) (by omega) (by omega)
      obtain ⟨C4, h6, l4⟩ :=
        pass_add_chk_some C3 (c + n / 2) T2 0 (n / 2 * (n / 2)) (by omega) (by omega)
      obtain ⟨C5, h7, l5⟩ := ih A (a + n / 2 * n) B b C4 (c + n / 2 * n) (n / 2) bt hm
        (by omega) (by omega) (by omega)
      obtain ⟨T3, h8, t3⟩ := ih A (a + (n / 2 * n + n / 2)) B (b + n / 2 * n) T2 0 (n / 2) bt hm
        (by omega) (by omega) (by omega)
      obtain ⟨C6, h9, l6⟩ :=
        pass_add_chk_some C5 (c + n / 2 * n) T3 0 (n / 2 * (n / 2)) (by omega) (by omega)
      obtain ⟨C7, h10, l7⟩ := ih A (a + n / 2 * n) B (b + n / 2) C6 (c + (n / 2 * n + n / 2))
        (n / 2) bt hm (by omega) (by omega) (by omega)
      obtain ⟨T4, h11, t4⟩ := ih A (a + (n / 2 * n + n / 2)) B (b + (n / 2 * n + n / 2)) T3 0
        (n / 2) bt hm (by omega) (by omega) (by omega)
      obtain ⟨C8, h12, l8⟩ :=
        pass_add_chk_some C7 (c + (n / 2 * n + n / 2)) T4 0 (n / 2 * (n / 2)) (by omega) (by omega)
      refine ⟨C8, ?_, by omega⟩
      rw [mult_dac_chk, if_neg hb]
      simp only [h1, h2, h3, h4, h5, h6, h7, h8, h9, h10, h11, h12]

/-- With every pointer leaving room for `n * n` cells in its allocation, the
checked `mult_strassen` returns, and the destination allocation keeps its
length. -/
theorem mult_strassen_chk_some (fuel : Nat) :
    ∀ (heap : Heap) (A : List Int) (a : Nat) (B : List Int) (b : Nat) (C : List Int)
      (c n base_thresh : Nat),
      n ≤ fuel → a + n * n ≤ A.length → b + n * n ≤ B.length → c + n * n ≤ C.length →
      ∃ C2, mult_strassen_chk fuel heap A a B b C c n base_thresh = some C2
        ∧ C2.length = C.length := by
  induction fuel with
  | zero =>
    intro heap A a B b C c n bt hf hA hB hC
    have hb : n ≤ bt := by omega
    simp only [mult_strassen_chk, if_pos hb]
    exact mult_seq_chk_some A a B b C c n hA hB hC
  | succ f ih =>
    intro heap A a B b C c n bt hf hA hB hC
    by_cases hb : n ≤ bt
    · simp only [mult_strassen_chk, if_pos hb]
      exact mult_seq_chk_some A a B b C c n hA hB hC
    · have hm : n / 2 ≤ f := by omega
      have hq := quadrant_fits n
      have hS1 := alloc_length (heap []).S1 (n / 2 * (n / 2))
      have hS2 := alloc_length (heap []).S2 (n / 2 * (n / 2))
      have hP := alloc_length (heap []).P (n / 2 * (n / 2))
      obtain ⟨S1_1, h1, l1⟩ :=
        sum_into_chk_some (alloc (heap []).S1 (n / 2 * (n / 2))) A a A (a + (n / 2 * n + n / 2)) (n / 2 * (n / 2))
          (by clear * - hS1; omega) (by clear * - hA hq; omega) (by clear * - hA hq; omega)
      have L1 : S1_1.length = n / 2 * (n / 2) := l1.trans hS1
      obtain ⟨S2_1, h2, l2⟩ :=
        sum_into_chk_some (alloc (heap []).S2 (n / 2 * (n / 2))) B b B (b + (n / 2 * n + n / 2)) (n / 2 * (n / 2))
          (by clear * - hS2; omega) (by clear * - hB hq; omega) (by clear * - hB hq; omega)
      have L2 : S2_1.length = n / 2 * (n / 2) := l2.trans hS2
      obtain ⟨P_1, h3, l3⟩ :=
        ih (heap.sub 1) S1_1 0 S2_1 0 (alloc (heap []).P (n / 2 * (n / 2))) 0 (n / 2) bt hm
          (by clear * - L1; omega) (by clear * - L2; omega) (by clear * - hP; omega)
      have L3 : P_1.length = n / 2 * (n / 2) := l3.trans hP
      obtain ⟨C_1, h4, l4⟩ :=
        pass_set_chk_some C c P_1 0 (n / 2 * (n / 2))
          (by clear * - hC hq; omega) (by clear * - L3; omega)
      have L4 : C_1.length = C.length := l4
      obtain ⟨C_2, h5, l5⟩ :=
        pass_set_chk_some C_1 (c + (n / 2 * n + n / 2)) P_1 0 (n / 2 * (n / 2))
          (by clear * - hC hq L4; omega) (by clear * - L3; omega)
      have L5 : C_2.length = C.length := l5.trans L4
      obtain ⟨S1_2, h6, l6⟩ :=
        sum_into_chk_some S1_1 A (a + n / 2 * n) A (a + (n / 2 * n + n / 2)) (n / 2 * (n / 2))
          (by clear * - L1; omega) (by clear * - hA hq; omega) (by clear * - hA hq; omega)
      have L6 : S1_2.length = n / 2 * (n / 2) := l6.trans L1
      obtain ⟨P_2, h7, l7⟩ :=
        ih (heap.sub 2) S1_2 0 B b P_1 0 (n / 2) bt hm
          (by clear * - L6; omega) (by clear * - hB hq; omega) (by clear * - L3; omega)
      have L7 : P_2.length = n / 2 * (n / 2) := l7.trans L3
      obtain ⟨C_3, h8, l8⟩ :=
        pass_set_chk_some C_2 (c + n / 2 * n) P_2 0 (n / 2 * (n / 2))
          (by clear * - hC hq L5; omega) (by clear * - L7; omega)
      have L8 : C_3.length = C.length := l8.trans L5
      obtain ⟨C_4, h9, l9⟩ :=
        pass_add_chk_some C_3 c P_2 0 (n / 2 * (n / 2))
          (by clear * - hC hq L8; omega) (by clear * - L7; omega)
      have L9 : C_4.length = C.length := l9.trans L8
      obtain ⟨S2_2, h10, l10⟩ :=
        diff_into_chk_some S2_1 B (b + n / 2) B (b + (n / 2 * n + n / 2)) (n / 2 * (n / 2))
          (by clear * - L2; omega) (by clear * - hB hq; omega) (by clear * - hB hq; omega)
      have L10 : S2_2.length = n / 2 * (n / 2) := l10.trans L2
      obtain ⟨P_3, h11, l11⟩ :=
        ih (heap.sub 3) A a S2_2 0 P_2 0 (n / 2) bt hm
          (by clear * - hA hq; omega) (by clear * - L10; omega) (by clear * - L7; omega)
      have L11 : P_3.length = n / 2 * (n / 2) := l11.trans L7
      obtain ⟨C_5, h12, l12⟩ :=
        pass_set_chk_some C_4 (c + n / 2) P_3 0 (n / 2 * (n / 2))
          (by clear * - hC hq L9; omega) (by clear * - L11; omega)
      have L12 : C_5.length = C.length := l12.trans L9
      obtain ⟨C_6, h13, l13⟩ :=
        pass_add_chk_some C_5 c P_3 0 (n / 2 * (n / 2))
          (by clear * - hC hq L12; omega) (by clear * - L11; omega)
      have L13 : C_6.length = C.length := l13.trans L12
      obtain ⟨S2_3, h14, l14⟩ :=
        diff_into_chk_some S2_2 B (b + n / 2 * n) B b (n / 2 * (n / 2))
          (by clear * - L10; omega) (by clear * - hB hq; omega) (by clear * - hB hq; omega)
      have L14 : S2_3.length = n / 2 * (n / 2) := l14.trans L10
      obtain ⟨P_4, h15, l15⟩ :=
        ih (heap.sub 4) A (a + (n / 2 * n + n / 2)) S2_3 0 P_3 0 (n / 2) bt hm
          (by clear * - hA hq; omega) (by clear * - L14; omega) (by clear * - L11; omega)
      have L15 : P_4.length = n / 2 * (n / 2) := l15.trans L11
      obtain ⟨C_7, h16, l16⟩ :=
        pass_add_chk_some C_6 (c + (n / 2 * n + n / 2)) P_4 0 (n / 2 * (n / 2))
          (by clear * - hC hq L13; omega) (by clear * - L15; omega)
      have L16 : C_7.length = C.length := l16.trans L13
      obtain ⟨C_8, h17, l17⟩ :=
        pass_sub_chk_some C_7 (c + n / 2) P_4 0 (n / 2 * (n / 2))
          (by clear * - hC hq L16; omega) (by clear * - L15; omega)
      have L17 : C_8.length = C.length := l17.trans L16
      obtain ⟨S1_3, h18, l18⟩ :=
        sum_into_chk_some S1_2 A a A (a + n / 2) (n / 2 * (n / 2))
          (by clear * - L6; omega) (by clear * - hA hq; omega) (by clear * - hA hq; omega)
      have L18 : S1_3.length = n / 2 * (n / 2) := l18.trans L6
      obtain ⟨P_5, h19, l19⟩ :=
        ih (heap.sub 5) S1_3 0 B (b + (n / 2 * n + n / 2)) P_4 0 (n / 2) bt hm
          (by clear * - L18; omega) (by clear * - hB hq; omega) (by clear * - L15; omega)
      have L19 : P_5.length = n / 2 * (n / 2) := l19.trans L15
      obtain ⟨C_9, h20, l20⟩ :=
        pass_add_chk_some C_8 (c + n / 2) P_5 0 (n / 2 * (n / 2))
          (by clear * - hC hq L17; omega) (by clear * - L19; omega)
      have L20 : C_9.length = C.length := l20.trans L17
      obtain ⟨C_10, h21, l21⟩ :=
        pass_add_chk_some C_9 (c + (n / 2 * n + n / 2)) P_5 0 (n / 2 * (n / 2))
          (by clear * - hC hq L20; omega) (by clear * - L19; omega)
      have L21 : C_10.length = C.length := l21.trans L20
      obtain ⟨S1_4, h22, l22⟩ :=
        diff_into_chk_some S1_3 A (a + n / 2 * n) A a (n / 2 * (n / 2))
          (by clear * - L18; omega) (by clear * - hA hq; omega) (by clear * - hA hq; omega)
      have L22 : S1_4.length = n / 2 * (n / 2) := l22.trans L18
      obtain ⟨S2_4, h23, l23⟩ :=
        sum_into_chk_some S2_3 B b B (b + n / 2) (n / 2 * (n / 2))
          (by clear * - L14; omega) (by clear * - hB hq; omega) (by clear * - hB hq; omega)
      have L23 : S2_4.length = n / 2 * (n / 2) := l23.trans L14
      obtain ⟨P_6, h24, l24⟩ :=
        ih (heap.sub 6) S1_4 0 S2_4 0 P_5 0 (n / 2) bt hm
          (by clear * - L22; omega) (by clear * - L23; omega) (by clear * - L19; omega)
      have L24 : P_6.length = n / 2 * (n / 2) := l24.trans L19
      obtain ⟨C_11, h25, l25⟩ :=
        pass_sub_chk_some C_10 c P_6 0 (n / 2 * (n / 2))
          (by clear * - hC hq L21; omega) (by clear * - L24; omega)
      have L25 : C_11.length = C.length := l25.trans L21
      obtain ⟨C_12, h26, l26⟩ :=
        pass_add_chk_some C_11 (c + n / 2 * n) P_6 0 (n / 2 * (n / 2))
          (by clear * - hC hq L25; omega) (by clear * - L24; omega)
      have L26 : C_12.length = C.length := l26.trans L25
      obtain ⟨S1_5, h27, l27⟩ :=
        diff_into_chk_some S1_4 A (a + n / 2) A (a + (n / 2 * n + n / 2)) (n / 2 * (n / 2))
          (by clear * - L22; omega) (by clear * - hA hq; omega) (by clear * - hA hq; omega)
      have L27 : S1_5.length = n / 2 * (n / 2) := l27.trans L22
      obtain ⟨S2_5, h28, l28⟩ :=
        sum_into_chk_some S2_4 B (b + n / 2 * n) B (b + (n / 2 * n + n / 2)) (n / 2 * (n / 2))
          (by clear * - L23; omega) (by clear * - hB hq; omega) (by clear * - hB hq; omega)
      have L28 : S2_5.length = n / 2 * (n / 2) := l28.trans L23
      obtain ⟨P_7, h29, l29⟩ :=
        ih (heap.sub 7) S1_5 0 S2_5 0 P_6 0 (n / 2) bt hm
          (by clear * - L27; omega) (by clear * - L28; omega) (by clear * - L24; omega)
      have L29 : P_7.length = n / 2 * (n / 2) := l29.trans L24
      obtain ⟨C_13, h30, l30⟩ :=
        pass_sub_chk_some C_12 (c + n / 2) P_7 0 (n / 2 * (n / 2))
          (by clear * - hC hq L26; omega) (by clear * - L29; omega)
      have L30 : C_13.length = C.length := l30.trans L26
      obtain ⟨C_14, h31, l31⟩ :=
        pass_add_chk_some C_13 (c + (n / 2 * n + n / 2)) P_7 0 (n / 2 * (n / 2))
          (by clear * - hC hq L30; omega) (by clear * - L29; omega)
      have L31 : C_14.length = C.length := l31.trans L30
      refine ⟨C_14, ?_, L31⟩
      rw [mult_strassen_chk, if_neg hb]
      simp only [h1, h2, h3, h4, h5, h6, h7, h8, h9, h10, h11, h12, h13, h14, h15, h16, h17, h18, h19, h20, h21, h22, h23, h24, h25, h26, h27, h28, h29, h30, h31]

/-- C19: for every `n ≥ 1` (even or odd) and every `base_thresh ≥ 1`, on
operands and a destination of `n * n` cells each, `mult_dac` and
`mult_strassen` with checked accesses return a result: no read of `A` or `B`,
no write of `C` and no access to a scratch buffer (`T`, `S1`, `S2`, `P`), at
any recursion depth and through any quadrant pointer, falls outside its
allocation. -/
theorem accesses_in_bounds (heap : Heap) (A B C : List Int) (n base_thresh : Nat)
    (_ : 1 ≤ n) (_ : 1 ≤ base_thresh)
    (hA : A.length = n * n) (hB : B.length = n * n) (hC : C.length = n * n) :
    (∃ C2, mult_dac_chk n A 0 B 0 C 0 n base_thresh = some C2 ∧ C2.length = n * n)
      ∧ ∃ C2, mult_strassen_chk n heap A 0 B 0 C 0 n base_thresh = some C2
          ∧ C2.length = n * n := by
  constructor
  · obtain ⟨C2, h, l⟩ := mult_dac_chk_some n A 0 B 0 C 0 n base_thresh (le_refl n)
      (by omega) (by omega) (by omega)
    exact ⟨C2, h, l.trans hC⟩
  · obtain ⟨C2, h, l⟩ := mult_strassen_chk_some n heap A 0 B 0 C 0 n base_thresh (le_refl n)
      (by omega) (by omega) (by omega)
    exact ⟨C2, h, l.trans hC⟩

theorem accesses_in_bounds_witness :
    ∃ C2, mult_strassen_chk 3 zero_heap [1, 2, 3, 4, 5, 6, 7, 8, 9] 0 [9, 8, 7, 6, 5, 4, 3, 2, 1] 0
      [0, 0, 0, 0, 0, 0, 0, 0, 0] 0 3 1 = some C2 ∧ C2.length = 3 * 3 :=
  (accesses_in_bounds zero_heap [1, 2, 3, 4, 5, 6, 7, 8, 9] [9, 8, 7, 6, 5, 4, 3, 2, 1]
    [0, 0, 0, 0, 0, 0, 0, 0, 0] 3 1 (by decide) (by decide) rfl rfl rfl).2

/-- The quadrant offsets as the three recursive functions compute them. -/
theorem quadrant_offset_values (n : Nat) :
    quadrant_offset n 0 = 0 ∧ quadrant_offset n 1 = n / 2 ∧ quadrant_offset n 2 = n / 2 * n
      ∧ quadrant_offset n 3 = n / 2 * n + n / 2 :=
  ⟨rfl, rfl, rfl, rfl⟩

/-- On the inputs used above the checked functions return the cells that the
unchecked ones leave. -/
theorem checked_agrees_example :
    mult_dac_chk 2 [1, 2, 3, 4] 0 [5, 6, 7, 8] 0 [0, 0, 0, 0] 0 2 1
        = (mult_dac (ofList [1, 2, 3, 4]) (ofList [5, 6, 7, 8]) zeros 0 2 1).map
            (fun C => cells C 4)
      ∧ mult_strassen_chk 2 zero_heap [1, 2, 3, 4] 0 [5, 6, 7, 8] 0 [0, 0, 0, 0] 0 2 1
        = (mult_strassen zero_heap (ofList [1, 2, 3, 4]) (ofList [5, 6, 7, 8]) zeros 0 2 1).map
            (fun C => cells C 4)
      ∧ mult_dac_chk 4 [1, 0, 0, 0, 0, 1, 0, 0, 0, 0, 1, 0, 0, 0, 0, 1] 0
          [1, 2, 3, 4, 5, 6, 7, 8, 9, 10, 11, 12, 13, 14, 15, 16] 0
          [0, 0, 0, 0, 0, 0, 0, 0, 0, 0, 0, 0, 0, 0, 0, 0] 0 4 2
        = (mult_dac (ofList [1, 0, 0, 0, 0, 1, 0, 0, 0, 0, 1, 0, 0, 0, 0, 1])
            (ofList [1, 2, 3, 4, 5, 6, 7, 8, 9, 10, 11, 12, 13, 14, 15, 16]) zeros 0 4 2).map
            (fun C => cells C 16) := by
  decide

/-! ## The checked functions compute what the unchecked ones compute -/

theorem agrees_iff (X : List Int) (Xf : Buf) :
    agrees X Xf ↔ ∀ k v, X.get? k = some v → Xf k = v := by
  unfold agrees reads rd
  simp only [Nat.zero_add]

theorem agrees_rd {X : List Int} {Xf : Buf} (h : agrees X Xf) {x k : Nat} {v : Int}
    (hv : rd X x k = some v) : Xf (x + k) = v :=
  (agrees_iff X Xf).mp h (x + k) v hv

theorem reads_ptr {X : List Int} {x : Nat} {Xf : Buf} (h : reads X x Xf) (d : Nat) :
    reads X (x + d) (ptr Xf d) := by
  intro k v hv
  unfold rd at hv
  rw [Nat.add_assoc] at hv
  exact h (d + k) v hv

theorem agrees_alloc (f : Buf) (sz : Nat) : agrees (alloc f sz) f := by
  rw [agrees_iff]
  intro k v hv
  unfold alloc at hv
  rw [List.get?_eq_getElem?, List.getElem?_map] at hv
  by_cases hk : k < sz
  · rw [List.getElem?_range hk] at hv
    simpa using hv
  · rw [List.getElem?_eq_none (by simpa using hk)] at hv
    simp at hv

theorem wr_agrees {X : List Int} {Xf : Buf} (h : agrees X Xf) {x k : Nat} {v : Int}
    {X2 : List Int} (hw : wr X x k v = some X2) : agrees X2 (store Xf (x + k) v) := by
  unfold wr at hw
  split at hw
  · rename_i hlt
    cases hw
    rw [agrees_iff] at h ⊢
    intro j w hj
    rw [List.get?_eq_getElem?, List.getElem?_set] at hj
    rw [store_apply]
    by_cases hjk : x + k = j
    · rw [if_pos hjk, if_pos hlt] at hj
      rw [if_pos hjk.symm]
      exact Option.some.inj hj
    · rw [if_neg hjk] at hj
      rw [if_neg (fun e => hjk e.symm)]
      exact h j w (by rw [List.get?_eq_getElem?]; exact hj)
  · cases hw

/-- A checked loop and an unchecked loop whose bodies keep a relation between
their states keep it to the end. -/
theorem loopM_rel {σ τ : Type} (R : σ → τ → Prop) (n : Nat) (bodyM : Nat → σ → Option σ)
    (body : Nat → τ → τ)
    (hstep : ∀ k s t s2, R s t → bodyM k s = some s2 → R s2 (body k t)) :
    ∀ s t s2, R s t → loopM n bodyM s = some s2 → R s2 (loop n body t) := by
  induction n with
  | zero =>
    intro s t s2 hR h
    cases h
    exact hR
  | succ k ih =>
    intro s t s2 hR h
    rw [loopM] at h
    obtain ⟨s1, h1, h2⟩ := Option.bind_eq_some.mp h
    exact hstep k s1 _ s2 (ih s t s1 hR h1) h2

theorem pass_set_chk_agrees {C : List Int} {Cf : Buf} {P : List Int} {p : Nat} {Pf : Buf}
    (hC : agrees C Cf) (hP : reads P p Pf) (c sz : Nat) {C2 : List Int}
    (h : pass_set_chk C c P p sz = some C2) : agrees C2 (pass_set Cf c Pf sz) := by
  refine loopM_rel agrees sz _ _ ?_ C Cf C2 hC h
  intro i X Xf X2 hX hb
  obtain ⟨v, hv, hw⟩ := Option.bind_eq_some.mp hb
  rw [hP i v hv]
  exact wr_agrees hX hw

theorem pass_add_chk_agrees {C : List Int} {Cf : Buf} {T : List Int} {t : Nat} {Tf : Buf}
    (hC : agrees C Cf) (hT : reads T t Tf) (c sz : Nat) {C2 : List Int}
    (h : pass_add_chk C c T t sz = some C2) : agrees C2 (pass_add Cf c Tf sz) := by
  refine loopM_rel agrees sz _ _ ?_ C Cf C2 hC h
  intro i X Xf X2 hX hb
  obtain ⟨u, hu, hb⟩ := Option.bind_eq_some.mp hb
  obtain ⟨v, hv, hw⟩ := Option.bind_eq_some.mp hb
  rw [hT i v hv, agrees_rd hX hu]
  exact wr_agrees hX hw

theorem pass_sub_chk_agrees {C : List Int} {Cf : Buf} {P : List Int} {p : Nat} {Pf : Buf}
    (hC : agrees C Cf) (hP : reads P p Pf) (c sz : Nat) {C2 : List Int}
    (h : pass_sub_chk C c P p sz = some C2) : agrees C2 (pass_sub Cf c Pf sz) := by
  refine loopM_rel agrees sz _ _ ?_ C Cf C2 hC h
  intro i X Xf X2 hX hb
  obtain ⟨u, hu, hb⟩ := Option.bind_eq_some.mp hb
  obtain ⟨v, hv, hw⟩ := Option.bind_eq_some.mp hb
  rw [hP i v hv, agrees_rd hX hu]
  exact wr_agrees hX hw

theorem sum_into_chk_agrees {S : List Int} {Sf : Buf} {X : List Int} {x : Nat} {Xf : Buf}
    {Y : List Int} {y : Nat} {Yf : Buf}
    (hS : agrees S Sf) (hX : reads X x Xf) (hY : reads Y y Yf) (sz : Nat) {S2 : List Int}
    (h : sum_into_chk S X x Y y sz = some S2) : agrees S2 (sum_into Sf Xf Yf sz) := by
  refine loopM_rel agrees sz _ _ ?_ S Sf S2 hS h
  intro i Z Zf Z2 hZ hb
  obtain ⟨u, hu, hb⟩ := Option.bind_eq_some.mp hb
  obtain ⟨v, hv, hw⟩ := Option.bind_eq_some.mp hb
  rw [hX i u hu, hY i v hv]
  have := wr_agrees hZ hw
  rwa [Nat.zero_add] at this

theorem diff_into_chk_agrees {S : List Int} {Sf : Buf} {X : List Int} {x : Nat} {Xf : Buf}
    {Y : List Int} {y : Nat} {Yf : Buf}
    (hS : agrees S Sf) (hX : reads X x Xf) (hY : reads Y y Yf) (sz : Nat) {S2 : List Int}
    (h : diff_into_chk S X x Y y sz = some S2) : agrees S2 (diff_into Sf Xf Yf sz) := by
  refine loopM_rel agrees sz _ _ ?_ S Sf S2 hS h
  intro i Z Zf Z2 hZ hb
  obtain ⟨u, hu, hb⟩ := Option.bind_eq_some.mp hb
  obtain ⟨v, hv, hw⟩ := Option.bind_eq_some.mp hb
  rw [hX i u hu, hY i v hv]
  have := wr_agrees hZ hw
  rwa [Nat.zero_add] at this

theorem mult_seq_chk_agrees {A : List Int} {a : Nat} {Af : Buf} {B : List Int} {b : Nat}
    {Bf : Buf} {C : List Int} {Cf : Buf}
    (hA : reads A a Af) (hB : reads B b Bf) (hC : agrees C Cf) (c n : Nat) {C2 : List Int}
    (h : mult_seq_chk A a B b C c n = some C2) : agrees C2 (mult_seq Af Bf Cf c n) := by
  refine loopM_rel agrees n _ _ ?_ C Cf C2 hC h
  intro i X Xf X2 hX hb
  refine loopM_rel agrees n _ _ ?_ X Xf X2 hX hb
  intro k X Xf X2 hX hb
  obtain ⟨aik, haik, hb⟩ := Option.bind_eq_some.mp hb
  rw [hA _ aik haik]
  refine loopM_rel agrees n _ _ ?_ X Xf X2 hX hb
  intro j X Xf X2 hX hb
  obtain ⟨u, hu, hb⟩ := Option.bind_eq_some.mp hb
  obtain ⟨v, hv, hw⟩ := Option.bind_eq_some.mp hb
  rw [hB _ v hv, agrees_rd hX hu]
  exact wr_agrees hX hw

/-- Whenever the checked `mult_dac` returns, the unchecked one returns the same cells. -/
theorem mult_dac_chk_agrees (fuel : Nat) :
    ∀ (A : List Int) (a : Nat) (B : List Int) (b : Nat) (C : List Int)
      (c n base_thresh : Nat) (Af Bf Cf : Buf) (C2 : List Int),
      reads A a Af → reads B b Bf → agrees C Cf →
      mult_dac_chk fuel A a B b C c n base_thresh = some C2 →
      ∃ Cf2, mult_dac_fuel fuel Af Bf Cf c n base_thresh = some Cf2 ∧ agrees C2 Cf2 := by
  induction fuel with
  | zero =>
    intro A a B b C c n bt Af Bf Cf C2 hA hB hC h
    by_cases hb : n ≤ bt
    · simp only [mult_dac_chk, if_pos hb] at h
      rw [mult_dac_fuel_base _ Af Bf Cf c n bt hb]
      exact ⟨_, rfl, mult_seq_chk_agrees hA hB hC c n h⟩
    · simp [mult_dac_chk, hb] at h
  | succ f ih =>
    intro A a B b C c n bt Af Bf Cf C2 hA hB hC h
    by_cases hb : n ≤ bt
    · simp only [mult_dac_chk, if_pos hb] at h
      rw [mult_dac_fuel_base _ Af Bf Cf c n bt hb]
      exact ⟨_, rfl, mult_seq_chk_agrees hA hB hC c n h⟩
    · rw [mult_dac_chk, if_neg hb] at h
      dsimp only at h
      split at h
      · cases h
      rename_i C_1 e1
      split at h
      · cases h
      rename_i T_1 e2
      split at h
      · cases h
      rename_i C_2 e3
      split at h
      · cases h
      rename_i C_3 e4
      split at h
      · cases h
      rename_i T_2 e5
      split at h
      · cases h
      rename_i C_4 e6
      split at h
      · cases h
      rename_i C_5 e7
      split at h
      · cases h
      rename_i T_3 e8
      split at h
      · cases h
      rename_i C_6 e9
      split at h
      · cases h
      rename_i C_7 e10
      split at h
      · cases h
      rename_i T_4 e11
      split at h
      · cases h
      rename_i C_8 e12
      cases h
      obtain ⟨F1, u1, g1⟩ := ih _ _ _ _ _ _ _ _ _ _ _ _ hA hB hC e1
      obtain ⟨F2, u2, g2⟩ := ih _ _ _ _ _ _ _ _ _ _ _ _ (reads_ptr hA (n / 2)) (reads_ptr hB (n / 2 * n)) (agrees_alloc zeros (n / 2 * (n / 2))) e2
      have g3 := pass_add_chk_agrees g1 g2 c (n / 2 * (n / 2)) e3
      obtain ⟨F4, u4, g4⟩ := ih _ _ _ _ _ _ _ _ _ _ _ _ hA (reads_ptr hB (n / 2)) g3 e4
      obtain ⟨F5, u5, g5⟩ := ih _ _ _ _ _ _ _ _ _ _ _ _ (reads_ptr hA (n / 2)) (reads_ptr hB (n / 2 * n + n / 2)) g2 e5
      have g6 := pass_add_chk_agrees g4 g5 (c + n / 2) (n / 2 * (n / 2)) e6
      obtain ⟨F7, u7, g7⟩ := ih _ _ _ _ _ _ _ _ _ _ _ _ (reads_ptr hA (n / 2 * n)) hB g6 e7
      obtain ⟨F8, u8, g8⟩ := ih _ _ _ _ _ _ _ _ _ _ _ _ (reads_ptr hA (n / 2 * n + n / 2)) (reads_ptr hB (n / 2 * n)) g5 e8
      have g9 := pass_add_chk_agrees g7 g8 (c + n / 2 * n) (n / 2 * (n / 2)) e9
      obtain ⟨F10, u10, g10⟩ := ih _ _ _ _ _ _ _ _ _ _ _ _ (reads_ptr hA (n / 2 * n)) (reads_ptr hB (n / 2)) g9 e10
      obtain ⟨F11, u11, g11⟩ := ih _ _ _ _ _ _ _ _ _ _ _ _ (reads_ptr hA (n / 2 * n + n / 2)) (reads_ptr hB (n / 2 * n + n / 2)) g8 e11
      have g12 := pass_add_chk_agrees g10 g11 (c + (n / 2 * n + n / 2)) (n / 2 * (n / 2)) e12
      rw [mult_dac_fuel, if_neg hb]
      simp only [u1, u2, u4, u5, u7, u8, u10, u11, Option.some_bind]
      exact ⟨_, rfl, g12⟩

/-- Whenever the checked `mult_strassen` returns, the unchecked one returns the same cells. -/
theorem mult_strassen_chk_agrees (fuel : Nat) :
    ∀ (heap : Heap) (A : List Int) (a : Nat) (B : List Int) (b : Nat) (C : List Int)
      (c n base_thresh : Nat) (Af Bf Cf : Buf) (C2 : List Int),
      reads A a Af → reads B b Bf → agrees C Cf →
      mult_strassen_chk fuel heap A a B b C c n base_thresh = some C2 →
      ∃ Cf2, mult_strassen_fuel fuel heap Af Bf Cf c n base_thresh = some Cf2 ∧ agrees C2 Cf2 := by
  induction fuel with
  | zero =>
    intro heap A a B b C c n bt Af Bf Cf C2 hA hB hC h
    by_cases hb : n ≤ bt
    · simp only [mult_strassen_chk, if_pos hb] at h
      rw [mult_strassen_fuel_base _ heap Af Bf Cf c n bt hb]
      exact ⟨_, rfl, mult_seq_chk_agrees hA hB hC c n h⟩
    · simp [mult_strassen_chk, hb] at h
  | succ f ih =>
    intro heap A a B b C c n bt Af Bf Cf C2 hA hB hC h
    by_cases hb : n ≤ bt
    · simp only [mult_strassen_chk, if_pos hb] at h
      rw [mult_strassen_fuel_base _ heap Af Bf Cf c n bt hb]
      exact ⟨_, rfl, mult_seq_chk_agrees hA hB hC c n h⟩
    · rw [mult_strassen_chk, if_neg hb] at h
      dsimp only at h
      split at h
      · cases h
      rename_i S1_1 e1
      split at h
      · cases h
      rename_i S2_1 e2
      split at h
      · cases h
      rename_i P_1 e3
      split at h
      · cases h
      rename_i C_1 e4
      split at h
      · cases h
      rename_i C_2 e5
      split at h
      · cases h
      rename_i S1_2 e6
      split at h
      · cases h
      rename_i P_2 e7
      split at h
      · cases h
      rename_i C_3 e8
      split at h
      · cases h
      rename_i C_4 e9
      split at h
      · cases h
      rename_i S2_2 e10
      split at h
      · cases h
      rename_i P_3 e11
      split at h
      · cases h
      rename_i C_5 e12
      split at h
      · cases h
      rename_i C_6 e13
      split at h
      · cases h
      rename_i S2_3 e14
      split at h
      · cases h
      rename_i P_4 e15
      split at h
      · cases h
      rename_i C_7 e16
      split at h
      · cases h
      rename_i C_8 e17
      split at h
      · cases h
      rename_i S1_3 e18
      split at h
      · cases h
      rename_i P_5 e19
      split at h
      · cases h
      rename_i C_9 e20
      split at h
      · cases h
      rename_i C_10 e21
      split at h
      · cases h
      rename_i S1_4 e22
      split at h
      · cases h
      rename_i S2_4 e23
      split at h
      · cases h
      rename_i P_6 e24
      split at h
      · cases h
      rename_i C_11 e25
      split at h
      · cases h
      rename_i C_12 e26
      split at h
      · cases h
      rename_i S1_5 e27
      split at h
      · cases h
      rename_i S2_5 e28
      split at h
      · cases h
      rename_i P_7 e29
      split at h
      · cases h
      rename_i C_13 e30
      split at h
      · cases h
      rename_i C_14 e31
      cases h
      have g1 := sum_into_chk_agrees (agrees_alloc (heap []).S1 (n / 2 * (n / 2))) hA (reads_ptr hA (n / 2 * n + n / 2)) (n / 2 * (n / 2)) e1
      have g2 := sum_into_chk_agrees (agrees_alloc (heap []).S2 (n / 2 * (n / 2))) hB (reads_ptr hB (n / 2 * n + n / 2)) (n / 2 * (n / 2)) e2
      obtain ⟨F3, u3, g3⟩ := ih _ _ _ _ _ _ _ _ _ _ _ _ _ g1 g2 (agrees_alloc (heap []).P (n / 2 * (n / 2))) e3
      have g4 := pass_set_chk_agrees hC g3 c (n / 2 * (n / 2)) e4
      have g5 := pass_set_chk_agrees g4 g3 (c + (n / 2 * n + n / 2)) (n / 2 * (n / 2)) e5
      have g6 := sum_into_chk_agrees g1 (reads_ptr hA (n / 2 * n)) (reads_ptr hA (n / 2 * n + n / 2)) (n / 2 * (n / 2)) e6
      obtain ⟨F7, u7, g7⟩ := ih _ _ _ _ _ _ _ _ _ _ _ _ _ g6 hB g3 e7
      have g8 := pass_set_chk_agrees g5 g7 (c + n / 2 * n) (n / 2 * (n / 2)) e8
      have g9 := pass_add_chk_agrees g8 g7 c (n / 2 * (n / 2)) e9
      have g10 := diff_into_chk_agrees g2 (reads_ptr hB (n / 2)) (reads_ptr hB (n / 2 * n + n / 2)) (n / 2 * (n / 2)) e10
      obtain ⟨F11, u11, g11⟩ := ih _ _ _ _ _ _ _ _ _ _ _ _ _ hA g10 g7 e11
      have g12 := pass_set_chk_agrees g9 g11 (c + n / 2) (n / 2 * (n / 2)) e12
      have g13 := pass_add_chk_agrees g12 g11 c (n / 2 * (n / 2)) e13
      have g14 := diff_into_chk_agrees g10 (reads_ptr hB (n / 2 * n)) hB (n / 2 * (n / 2)) e14
      obtain ⟨F15, u15, g15⟩ := ih _ _ _ _ _ _ _ _ _ _ _ _ _ (reads_ptr hA (n / 2 * n + n / 2)) g14 g11 e15
      have g16 := pass_add_chk_agrees g13 g15 (c + (n / 2 * n + n / 2)) (n / 2 * (n / 2)) e16
      have g17 := pass_sub_chk_agrees g16 g15 (c + n / 2) (n / 2 * (n / 2)) e17
      have g18 := sum_into_chk_agrees g6 hA (reads_ptr hA (n / 2)) (n / 2 * (n / 2)) e18
      obtain ⟨F19, u19, g19⟩ := ih _ _ _ _ _ _ _ _ _ _ _ _ _ g18 (reads_ptr hB (n / 2 * n + n / 2)) g15 e19
      have g20 := pass_add_chk_agrees g17 g19 (c + n / 2) (n / 2 * (n / 2)) e20
      have g21 := pass_add_chk_agrees g20 g19 (c + (n / 2 * n + n / 2)) (n / 2 * (n / 2)) e21
      have g22 := diff_into_chk_agrees g18 (reads_ptr hA (n / 2 * n)) hA (n / 2 * (n / 2)) e22
      have g23 := sum_into_chk_agrees g14 hB (reads_ptr hB (n / 2)) (n / 2 * (n / 2)) e23
      obtain ⟨F24, u24, g24⟩ := ih _ _ _ _ _ _ _ _ _ _ _ _ _ g22 g23 g19 e24
      have g25 := pass_sub_chk_agrees g21 g24 c (n / 2 * (n / 2)) e25
      have g26 := pass_add_chk_agrees g25 g24 (c + n / 2 * n) (n / 2 * (n / 2)) e26
      have g27 := diff_into_chk_agrees g22 (reads_ptr hA (n / 2)) (reads_ptr hA (n / 2 * n + n / 2)) (n / 2 * (n / 2)) e27
      have g28 := sum_into_chk_agrees g23 (reads_ptr hB (n / 2 * n)) (reads_ptr hB (n / 2 * n + n / 2)) (n / 2 * (n / 2)) e28
      obtain ⟨F29, u29, g29⟩ := ih _ _ _ _ _ _ _ _ _ _ _ _ _ g27 g28 g24 e29
      have g30 := pass_sub_chk_agrees g26 g29 (c + n / 2) (n / 2 * (n / 2)) e30
      have g31 := pass_add_chk_agrees g30 g29 (c + (n / 2 * n + n / 2)) (n / 2 * (n / 2)) e31
      rw [mult_strassen_fuel, if_neg hb]
      simp only [u3, u7, u11, u15, u19, u24, u29, Option.some_bind]
      exact ⟨_, rfl, g31⟩

theorem agrees_ofList (X : List Int) : agrees X (ofList X) := by
  rw [agrees_iff]
  intro k v hv
  unfold ofList
  rw [List.get?_eq_getElem?] at hv
  rw [List.getD_eq_getElem?_getD, hv]
  rfl

/-- Whenever the checked `mult_dac` or `mult_strassen` returns on the
allocations `A`, `B`, `C`, the unchecked function returns on the buffers with
the same cells, and leaves in the destination the cells the checked one
returns. -/
theorem checked_refines_unchecked (heap : Heap) (A B C : List Int) (n base_thresh : Nat)
    (C2 : List Int) :
    (mult_dac_chk n A 0 B 0 C 0 n base_thresh = some C2 →
        ∃ Cf, mult_dac (ofList A) (ofList B) (ofList C) 0 n base_thresh = some Cf ∧ agrees C2 Cf)
      ∧ (mult_strassen_chk n heap A 0 B 0 C 0 n base_thresh = some C2 →
        ∃ Cf, mult_strassen heap (ofList A) (ofList B) (ofList C) 0 n base_thresh = some Cf
          ∧ agrees C2 Cf) :=
  ⟨mult_dac_chk_agrees n A 0 B 0 C 0 n base_thresh _ _ _ C2
      (agrees_ofList A) (agrees_ofList B) (agrees_ofList C),
    mult_strassen_chk_agrees n heap A 0 B 0 C 0 n base_thresh _ _ _ C2
      (agrees_ofList A) (agrees_ofList B) (agrees_ofList C)⟩

/-! ## The sequential kernel on 64-bit integers -/

theorem wrap64_add_left (x y : Int) : wrap64 (wrap64 x + y) = wrap64 (x + y) := by
  unfold wrap64; omega

theorem wrap64_add_right (x y : Int) : wrap64 (x + wrap64 y) = wrap64 (x + y) := by
  unfold wrap64; omega

/-- A value that fits in a `long` is kept. -/
theorem wrap64_of_fits (x : Int) (h1 : -9223372036854775808 ≤ x) (h2 : x < 9223372036854775808) :
    wrap64 x = x := by
  unfold wrap64; omega

theorem mult_seq_long_j_loop (B : Buf) (c n i k : Nat) (aik : Int) (C : Buf) (J q : Nat) :
    loop J (fun j C =>
        store C (c + (i * n + j)) (wrap64 (C (c + (i * n + j)) + wrap64 (aik * B (k * n + j))))) C q
      = if c + i * n ≤ q ∧ q < c + i * n + J then
          wrap64 (C q + aik * B (k * n + (q - (c + i * n))))
        else C q := by
  induction J with
  | zero => rw [loop_zero, if_neg (by omega)]
  | succ J ih =>
    rw [loop_succ, store_apply]
    by_cases hq : q = c + (i * n + J)
    · subst hq
      rw [if_pos rfl, ih]
      clear ih
      rw [if_neg (by omega), if_pos (by omega), wrap64_add_right]
      congr 4
      omega
    · rw [if_neg hq, ih]
      clear ih
      by_cases h : c + i * n ≤ q ∧ q < c + i * n + J
      · rw [if_pos h, if_pos (by omega)]
      · rw [if_neg h, if_neg (by omega)]

theorem mult_seq_long_j_apply (B : Buf) (c n i k : Nat) (aik : Int) (C : Buf) (q : Nat) :
    mult_seq_long_j B c n i k aik C q
      = if in_row c n i q then wrap64 (C q + aik * B (k * n + (q - (c + i * n)))) else C q :=
  mult_seq_long_j_loop B c n i k aik C n q

theorem mult_seq_long_k_loop (A B : Buf) (c n i : Nat) (C : Buf) (K q : Nat) :
    loop K (fun k C => mult_seq_long_j B c n i k (A (i * n + k)) C) C q
      = if in_row c n i q ∧ 0 < K then
          wrap64 (C q + ∑ k ∈ Finset.range K, A (i * n + k) * B (k * n + (q - (c + i * n))))
        else C q := by
  induction K with
  | zero => simp [loop_zero]
  | succ K ih =>
    rw [loop_succ, mult_seq_long_j_apply, ih]
    clear ih
    by_cases h : in_row c n i q
    · by_cases hK : 0 < K
      · simp only [h, hK, Nat.succ_pos, and_self, if_true]
        rw [Finset.sum_range_succ, wrap64_add_left, add_assoc]
      · have hK0 : K = 0 := by omega
        subst hK0
        simp [h]
    · simp [h]

theorem mult_seq_long_row_apply (A B : Buf) (c n i : Nat) (C : Buf) (q : Nat) :
    mult_seq_long_row A B c n i C q
      = if in_row c n i q then
          wrap64 (C q + ∑ k ∈ Finset.range n, A (i * n + k) * B (k * n + (q - (c + i * n))))
        else C q := by
  unfold mult_seq_long_row
  rw [mult_seq_long_k_loop]
  by_cases h : in_row c n i q
  · have hn : 0 < n := by unfold in_row at h; omega
    rw [if_pos ⟨h, hn⟩, if_pos h]
  · rw [if_neg h, if_neg (fun hh => h hh.1)]

/-- The rows `0, ..., I - 1` of `mult_seq` in `long` arithmetic. -/
theorem mult_seq_long_rows (A B : Buf) (c n : Nat) (C : Buf) (I i j : Nat) (hj : j < n) :
    loop I (fun i C => mult_seq_long_row A B c n i C) C (c + (i * n + j))
      = if i < I then
          wrap64 (C (c + (i * n + j))
            + ∑ k ∈ Finset.range n, A (i * n + k) * B (k * n + j))
        else C (c + (i * n + j)) := by
  induction I with
  | zero => rw [loop_zero, if_neg (by omega)]
  | succ I ih =>
    rw [loop_succ, mult_seq_long_row_apply, ih]
    clear ih
    by_cases hI : i = I
    · subst hI
      rw [if_pos (in_row_cell c n i j hj), if_neg (by omega), if_pos (by omega)]
      have e : c + (i * n + j) - (c + i * n) = j := by omega
      rw [e]
    · have hrow : ¬ in_row c n I (c + (i * n + j)) := fun h =>
        hI (in_row_unique (in_row_cell c n i j hj) h)
      rw [if_neg hrow]
      by_cases hlt : i < I
      · rw [if_pos hlt, if_pos (by omega)]
      · rw [if_neg hlt, if_neg (by omega)]

/-- In `long` arithmetic `mult_seq` leaves in each cell of the matrix the
64-bit reduction of what it leaves in exact arithmetic. -/
theorem mult_seq_long_eq_wrap (A B C : Buf) (c n i j : Nat) (hi : i < n) (hj : j < n) :
    mult_seq_long A B C c n (c + (i * n + j)) = wrap64 (mult_seq A B C c n (c + (i * n + j))) := by
  unfold mult_seq_long
  rw [mult_seq_long_rows A B c n C n i j hj, if_pos hi, mult_seq_cell A B C c n i j hi hj]

/-- C1 (as stated, fails on `long` arithmetic): with `n = 1`, `A = [2^62]`,
`B = [4]` and a zero-filled destination, `mult_seq` leaves `0` in the only
cell, not `0 + 2^62 * 4 = 2^64`. -/
theorem mult_seq_long_overflow_example :
    ¬ (mult_seq_long (ofList [4611686018427387904]) (ofList [4]) zeros 0 1 (0 + (0 * 1 + 0))
        = zeros (0 + (0 * 1 + 0))
          + ∑ k ∈ Finset.range 1,
              ofList [4611686018427387904] (0 * 1 + k) * ofList [4] (k * 1 + 0)) := by
  have l : mult_seq_long (ofList [4611686018427387904]) (ofList [4]) zeros 0 1 (0 + (0 * 1 + 0))
      = 0 := by decide
  have r : zeros (0 + (0 * 1 + 0))
      + ∑ k ∈ Finset.range 1, ofList [4611686018427387904] (0 * 1 + k) * ofList [4] (k * 1 + 0)
      = 18446744073709551616 := by
    simp [Finset.sum_range_one, ofList, zeros]
  rw [l, r]
  decide

/-- C1 (amended): for every `n`, all operands `A`, `B` and every initial
content `C0` of the destination, `mult_seq` leaves in the cell of row `i < n`
and column `j < n` the initial value plus the dot product of row `i` of `A` and
column `j` of `B`, reduced to a 64-bit two's complement number; it is exactly
that value whenever the value fits in a `long`.  In particular a zero-filled
destination ends as the matrix product reduced to 64 bits, and as the matrix
product itself where its entries fit in a `long`. -/
theorem mult_seq_long_spec (A B C0 : Buf) (c n i j : Nat) (hi : i < n) (hj : j < n) :
    mult_seq_long A B C0 c n (c + (i * n + j))
        = wrap64 (C0 (c + (i * n + j)) + ∑ k ∈ Finset.range n, A (i * n + k) * B (k * n + j))
      ∧ (-9223372036854775808
            ≤ C0 (c + (i * n + j)) + ∑ k ∈ Finset.range n, A (i * n + k) * B (k * n + j) →
          C0 (c + (i * n + j)) + ∑ k ∈ Finset.range n, A (i * n + k) * B (k * n + j)
            < 9223372036854775808 →
          mult_seq_long A B C0 c n (c + (i * n + j))
            = C0 (c + (i * n + j)) + ∑ k ∈ Finset.range n, A (i * n + k) * B (k * n + j))
      ∧ mult_seq_long A B zeros c n (c + (i * n + j))
        = wrap64 (∑ k ∈ Finset.range n, A (i * n + k) * B (k * n + j))
      ∧ (-9223372036854775808 ≤ ∑ k ∈ Finset.range n, A (i * n + k) * B (k * n + j) →
          ∑ k ∈ Finset.range n, A (i * n + k) * B (k * n + j) < 9223372036854775808 →
          mult_seq_long A B zeros c n (c + (i * n + j))
            = ∑ k ∈ Finset.range n, A (i * n + k) * B (k * n + j)) := by
  have e : ∀ C : Buf, mult_seq_long A B C c n (c + (i * n + j))
      = wrap64 (C (c + (i * n + j)) + ∑ k ∈ Finset.range n, A (i * n + k) * B (k * n + j)) := by
    intro C
    rw [mult_seq_long_eq_wrap A B C c n i j hi hj, mult_seq_cell A B C c n i j hi hj]
  have z : zeros (c + (i * n + j)) = 0 := rfl
  refine ⟨e C0, ?_, ?_, ?_⟩
  · intro h1 h2
    rw [e C0, wrap64_of_fits _ h1 h2]
  · rw [e zeros, z, zero_add]
  · intro h1 h2
    rw [e zeros, z, zero_add, wrap64_of_fits _ h1 h2]

theorem mult_seq_long_spec_witness :
    mult_seq_long (ofList [1, 2, 3, 4]) (ofList [5, 6, 7, 8]) (ofList [9, 9, 9, 9]) 0 2
        (0 + (1 * 2 + 0))
      = ofList [9, 9, 9, 9] (0 + (1 * 2 + 0))
          + ∑ k ∈ Finset.range 2, ofList [1, 2, 3, 4] (1 * 2 + k) * ofList [5, 6, 7, 8] (k * 2 + 0) :=
  (mult_seq_long_spec (ofList [1, 2, 3, 4]) (ofList [5, 6, 7, 8]) (ofList [9, 9, 9, 9]) 0 2 1 0
    (by decide) (by decide)).2.1
    (by simp [Finset.sum_range_succ, ofList]) (by simp [Finset.sum_range_succ, ofList])

end MatMul
